import Mathlib

set_option maxHeartbeats 1000000

namespace Roomler

/-!
Shallow embedding of the real-time plane of the roomler server:
the WebSocket connection registry (`crates/api/src/ws/storage.rs`),
the dispatcher fan-out (`crates/api/src/ws/dispatcher.rs` and `handler.rs`),
the transcription engine (`crates/transcription/src/engine.rs`),
the per-producer worker (`crates/transcription/src/worker.rs`)
and the TURN credential computation in `handle_media_join`.

Rust strings are modelled as `List Char`, `ObjectId` user ids as naturals,
`WsSender` handles (`Arc<Mutex<...>>`, compared by `Arc::ptr_eq`) by their
address modelled as a natural.  `DashMap`s are modelled as association
lists with insert-or-overwrite semantics.
-/

/-- Strings from the Rust source are modelled as lists of characters. -/
abbrev Str := List Char

/-- User ids (`bson::oid::ObjectId`) are opaque here; modelled as naturals. -/
abbrev UserId := Nat

/-- Connection ids are UUID strings in the source (`Uuid::new_v4().to_string()`). -/
abbrev ConnId := Str

/-- A `WsSender` is an `Arc<Mutex<SplitSink<..>>>`; only its pointer identity
(`Arc::ptr_eq`) is ever compared, so a sender is modelled by its address. -/
abbrev Sink := Nat

section AssocOps

variable {K V : Type} [DecidableEq K]

/-- Lookup in an association list (models `DashMap::get`). -/
def alookup (k : K) : List (K × V) → Option V
  | [] => none
  | (k', v) :: t => if k' = k then some v else alookup k t

/-- Insert-or-overwrite (models `DashMap::insert`). -/
def ainsert (k : K) (v : V) : List (K × V) → List (K × V)
  | [] => [(k, v)]
  | (k', v') :: t => if k' = k then (k, v) :: t else (k', v') :: ainsert k v t

/-- Remove by key (models `DashMap::remove`). -/
def aerase (k : K) : List (K × V) → List (K × V)
  | [] => []
  | (k', v') :: t => if k' = k then t else (k', v') :: aerase k t

/-- Modify the entry at `k` in place, or append `(k, f d)` when the key is
absent (models `DashMap::entry(k).or_default()` followed by a mutation). -/
def aupdate (k : K) (f : V → V) (d : V) : List (K × V) → List (K × V)
  | [] => [(k, f d)]
  | (k', v') :: t => if k' = k then (k', f v') :: t else (k', v') :: aupdate k f d t

/-- The keys of an association list. -/
def akeys (l : List (K × V)) : List K := l.map Prod.fst

/-- Erase a batch of keys, one `DashMap::remove` per key. -/
def aeraseAll (ks : List K) (l : List (K × V)) : List (K × V) :=
  ks.foldl (fun acc k => aerase k acc) l

end AssocOps

/-! ### Connection registry — `crates/api/src/ws/storage.rs` -/

/-- `WsStorage`: `connections: DashMap<ObjectId, Vec<WsSender>>` and
`connection_map: DashMap<String, (ObjectId, WsSender)>`. -/
structure WsStorage where
  connections : List (UserId × List Sink)
  connection_map : List (ConnId × UserId × Sink)
deriving DecidableEq

def WsStorage.empty : WsStorage := ⟨[], []⟩

/-- `WsStorage::add`: push the sender onto the user's vector
(`entry(user_id).or_default().push(sender)`) and record the connection
(`connection_map.insert(connection_id, (user_id, sender))`). -/
def WsStorage.add (st : WsStorage) (u : UserId) (c : ConnId) (s : Sink) : WsStorage where
  connections := aupdate u (fun l => l ++ [s]) [] st.connections
  connection_map := ainsert c (u, s) st.connection_map

/-- `WsStorage::remove`: retain the senders that are not pointer-equal to
`sender`, drop the user entry when the vector becomes empty, and remove the
connection record. -/
def WsStorage.remove (st : WsStorage) (u : UserId) (c : ConnId) (s : Sink) : WsStorage where
  connections :=
    match alookup u st.connections with
    | none => st.connections
    | some l =>
      let l' := l.filter (fun s' => s' ≠ s)
      if l'.isEmpty then aerase u st.connections
      else aupdate u (fun _ => l') [] st.connections
  connection_map := aerase c st.connection_map

/-- `WsStorage::get_senders`. -/
def WsStorage.getSenders (st : WsStorage) (u : UserId) : List Sink :=
  (alookup u st.connections).getD []

/-- `WsStorage::get_sender_by_connection`. -/
def WsStorage.getSenderByConnection (st : WsStorage) (c : ConnId) : Option Sink :=
  (alookup c st.connection_map).map Prod.snd

/-- `WsStorage::all_user_ids`. -/
def WsStorage.allUserIds (st : WsStorage) : List UserId :=
  akeys st.connections

/-- `WsStorage::connection_count`. -/
def WsStorage.connectionCount (st : WsStorage) : Nat :=
  (st.connections.map (fun p => p.2.length)).sum

/-- The per-user sinks of the connection-map view: the senders of all
registered connections belonging to `u`, in registration order. -/
def sendersOf (cm : List (ConnId × UserId × Sink)) (u : UserId) : List Sink :=
  cm.filterMap (fun e => if e.2.1 = u then some e.2.2 else none)

/-- The registered `(connection_id, sink)` pairs of user `u`. -/
def userConns (cm : List (ConnId × UserId × Sink)) (u : UserId) : List (ConnId × Sink) :=
  cm.filterMap (fun e => if e.2.1 = u then some (e.1, e.2.2) else none)

/-! ### Dispatcher fan-out — `crates/api/src/ws/dispatcher.rs` / `handler.rs` -/

/-- `dispatcher::broadcast`: the sinks a broadcast writes to, in order —
for each listed user, every sender of that user. -/
def broadcastSinks (st : WsStorage) (userIds : List UserId) : List Sink :=
  userIds.foldr (fun u acc => st.getSenders u ++ acc) []

/-- `ping` handler: `send_to_user(storage, user_id, pong)` — the pong is
broadcast to all connections of the sender's own user. -/
def pongSinks (st : WsStorage) (senderUser : UserId) : List Sink :=
  broadcastSinks st [senderUser]

/-- `typing:start`/`typing:stop` handler: the recipient users are the room
members minus the sender's user id (`filter(|id| id != user_id)`). -/
def typingRecipients (memberIds : List UserId) (senderUser : UserId) : List UserId :=
  memberIds.filter (fun i => i ≠ senderUser)

/-- The sinks a typing event is written to. -/
def typingSinks (st : WsStorage) (memberIds : List UserId) (senderUser : UserId) : List Sink :=
  broadcastSinks st (typingRecipients memberIds senderUser)

/-- `presence:update` handler: broadcast to `all_user_ids()` — every
currently connected user, the sender's own user included. -/
def presenceSinks (st : WsStorage) : List Sink :=
  broadcastSinks st st.allUserIds

/-! ### Media room participant table (spec-modelled)

The media room manager (`crates/services/src/media/room_manager.rs`) is not
part of the sources available here; only its callers are.  The operations
the WebSocket handler uses are modelled from the spec. -/

/-- Modelled from the spec: the media room manager's per-room participant
table, `room_id → participants: connection_id → Participant`, reduced to the
connection ids, which is all the fan-out paths consume.  Missing source:
`RoomManager` in `crates/services`. -/
structure RoomsState where
  rooms : List (Str × List ConnId)
deriving DecidableEq

/-- Modelled from the spec: `get_connection_room` — the room (if any) in which
the connection currently is a participant. -/
def getConnectionRoom (rs : RoomsState) (c : ConnId) : Option Str :=
  (rs.rooms.find? (fun p => p.2.contains c)).map Prod.fst

/-- Modelled from the spec: `get_other_connection_ids(room_id, connection_id)`
returns the connection ids of the room's participants excluding the given
connection id. -/
def getOtherConnectionIds (rs : RoomsState) (room : Str) (c : ConnId) : List ConnId :=
  ((alookup room rs.rooms).getD []).filter (fun c' => c' ≠ c)

/-- Modelled from the spec: `close_participant(room_id, connection_id)` removes
the participant entry of the connection from the room. -/
def closeParticipant (rs : RoomsState) (room : Str) (c : ConnId) : RoomsState :=
  ⟨aupdate room (fun l => l.filter (fun c' => c' ≠ c)) [] rs.rooms⟩

/-- The transcript broadcast task targets
`get_other_connection_ids(&room_id, "")` — an empty connection id, so no
participant is excluded. -/
def transcriptTargets (rs : RoomsState) (room : Str) : List ConnId :=
  getOtherConnectionIds rs room []

/-! ### Disconnect cleanup — `handle_socket` in `crates/api/src/ws/handler.rs` -/

/-- The pieces of server state the disconnect cleanup touches: the registry,
the engine's playback tracking and worker table, and the media rooms. -/
structure ServerState where
  ws : WsStorage
  playbacks : List (ConnId × List Str)
  engineWorkers : List (Str × Nat)
  rooms : RoomsState
deriving DecidableEq

/-- Observable steps of the disconnect cleanup, in execution order. -/
inductive CleanupAction where
  | removeRegistry (u : UserId) (c : ConnId)
  | stopPlayback (pid : Str)
  | closeParticipantStep (room : Str) (c : ConnId)
  | sendPeerLeft (target : ConnId) (leftConn : ConnId)
deriving DecidableEq

/-- `TranscriptionEngine::stop_connection_playbacks`: remove the connection's
playback list and stop (erase) each of those workers.  Returns the new
playback table, the new worker table and the list of stopped playback ids. -/
def stopConnectionPlaybacks (playbacks : List (ConnId × List Str))
    (workers : List (Str × Nat)) (c : ConnId) :
    List (ConnId × List Str) × List (Str × Nat) × List Str :=
  match alookup c playbacks with
  | none => (playbacks, workers, [])
  | some pids => (aerase c playbacks, aeraseAll pids workers, pids)

/-- The cleanup sequence at the end of `handle_socket`: (1) remove the
connection from the registry, (2) stop the file playbacks started by this
connection, (3) if the connection is in a media room, compute the remaining
peers, close the participant, and send `media:peer_left` to each remaining
peer connection.  Returns the new state and the trace of steps in order. -/
def wsCleanup (srv : ServerState) (u : UserId) (c : ConnId) (s : Sink) :
    ServerState × List CleanupAction :=
  let ws' := srv.ws.remove u c s
  let pb := stopConnectionPlaybacks srv.playbacks srv.engineWorkers c
  let base := CleanupAction.removeRegistry u c :: pb.2.2.map CleanupAction.stopPlayback
  match getConnectionRoom srv.rooms c with
  | none => (⟨ws', pb.1, pb.2.1, srv.rooms⟩, base)
  | some rid =>
    let remaining := getOtherConnectionIds srv.rooms rid c
    let rooms' := closeParticipant srv.rooms rid c
    let sends := if remaining.isEmpty then []
                 else remaining.map (fun p => CleanupAction.sendPeerLeft p c)
    (⟨ws', pb.1, pb.2.1, rooms'⟩, base ++ CleanupAction.closeParticipantStep rid c :: sends)

/-! ### Transcription engine — `crates/transcription/src/engine.rs` -/

/-- Engine state: `room_models: Mutex<HashMap<ObjectId, String>>`,
`workers: DashMap<String, WorkerHandle>` (handles modelled as naturals), and
`broadcast_active: DashSet<ObjectId>`.  Room ids are identified with their
24-character hex rendering, since worker keys are built from `to_hex()`. -/
structure EngineState where
  roomModels : List (Str × Str)
  workers : List (Str × Nat)
  broadcastActive : List Str
deriving DecidableEq

/-- Worker key for a live producer: `"{room_hex}:{producer_id}"`. -/
def mkLiveKey (roomHex producerId : Str) : Str := roomHex ++ ':' :: producerId

def fileColon : Str := "file:".toList

/-- Worker key for file playback: `"file:{room_hex}:{uuid}"`. -/
def mkFileKey (roomHex uuid : Str) : Str := fileColon ++ roomHex ++ ':' :: uuid

/-- Rust `str::starts_with`. -/
def strStartsWith (l p : Str) : Bool := l.take p.length == p

/-- The sixteen characters `ObjectId::to_hex` can produce. -/
def hexChars : List Char := "0123456789abcdef".toList

/-- An `ObjectId` hex rendering: exactly 24 lowercase hex characters. -/
def isHexId (r : Str) : Prop := r.length = 24 ∧ ∀ ch ∈ r, ch ∈ hexChars

instance (r : Str) : Decidable (isHexId r) := by
  unfold isHexId
  infer_instance

/-- `TranscriptionEngine::stop_pipeline`: remove the worker entry (which
aborts its task). -/
def stopPipeline (e : EngineState) (key : Str) : EngineState :=
  { e with workers := aerase key e.workers }

/-- `TranscriptionEngine::enable_room`: store the model selection. -/
def enableRoom (e : EngineState) (room model : Str) : EngineState :=
  { e with roomModels := ainsert room model e.roomModels }

/-- The key filter used by `disable_room`:
`key.starts_with(hex) || key.starts_with(format!("file:{}", hex))`. -/
def disableKeyHit (room key : Str) : Bool :=
  strStartsWith key room || strStartsWith key (fileColon ++ room)

/-- `TranscriptionEngine::disable_room`: drop the model selection, stop every
worker whose key matches the room prefix (live or file), clear the
broadcast-active flag. -/
def disableRoom (e : EngineState) (room : Str) : EngineState :=
  let models := aerase room e.roomModels
  let toRemove := (e.workers.filter (fun p => disableKeyHit room p.1)).map Prod.fst
  let workers := aeraseAll toRemove e.workers
  let active := e.broadcastActive.filter (fun r => r ≠ room)
  ⟨models, workers, active⟩

/-- `TranscriptionEngine::try_start_broadcast`: `DashSet::insert`, returning
whether the room was newly inserted. -/
def tryStartBroadcast (e : EngineState) (room : Str) : Bool × EngineState :=
  if room ∈ e.broadcastActive then (false, e)
  else (true, { e with broadcastActive := room :: e.broadcastActive })

/-- `TranscriptionEngine::clear_broadcast`. -/
def clearBroadcast (e : EngineState) (room : Str) : EngineState :=
  { e with broadcastActive := e.broadcastActive.filter (fun r => r ≠ room) }

/-- `spawn_transcript_broadcast` in `handler.rs` spawns the per-room task
exactly when `try_start_broadcast` returns true; the boolean records whether
a task was spawned. -/
def spawnTranscriptBroadcast (e : EngineState) (room : Str) : Bool × EngineState :=
  tryStartBroadcast e room

/-- `n` successive `try_start_broadcast` calls for the same room with no
intervening `clear_broadcast`; collects the returned booleans. -/
def casRun (e : EngineState) (room : Str) : Nat → List Bool × EngineState
  | 0 => ([], e)
  | n + 1 =>
    let r := tryStartBroadcast e room
    let rest := casRun r.2 room n
    (r.1 :: rest.1, rest.2)

/-! ### Ingestion loop — `crates/transcription/src/worker.rs` -/

/-- The configuration the ingestion loop reads
(`config.streaming_partial_interval_ms`, in milliseconds). -/
structure WorkerCfg where
  streamingIntervalMs : Nat
deriving DecidableEq

/-- `MIN_PARTIAL_SAMPLES`: minimum buffered samples before a PARTIAL
(0.5 s at 16 kHz). -/
def MIN_PARTIAL_SAMPLES : Nat := 8000

/-- `VadEvent` from `crates/transcription/src/vad/mod.rs`.  Audio samples are
modelled as integers (the f32 values are only passed through). -/
inductive VadEvent where
  | speechStart
  | speechEnd (audio : List Int) (durationMs : Nat)
deriving DecidableEq

/-- Modelled from the spec: what the Silero VAD (missing source
`crates/transcription/src/vad/silero.rs`) reports while one decoded chunk is
processed — the events returned by `vad.process`, and the values of
`vad.is_speech_active()` and `vad.speech_buffer()` after the call.  `time` is
the worker wall clock (`start_time.elapsed()` and `Instant::now()` during
this chunk), in milliseconds. -/
structure ChunkObs where
  time : Nat
  events : List VadEvent
  speechActive : Bool
  speechBuffer : List Int
deriving DecidableEq

/-- The mutable locals of the ingestion loop: `segment_start_time` and
`last_partial_at` (milliseconds). -/
structure IngestState where
  segmentStartTime : Nat
  lastPartAt : Nat
deriving DecidableEq

/-- `SpeechSegment` sent from the ingestion loop to the ASR loop. -/
structure Segment where
  audio : List Int
  startTime : Nat
  endTime : Nat
  isFinal : Bool
  segmentId : Str
deriving DecidableEq

/-- Decimal rendering of a natural. -/
def natToStr (n : Nat) : Str := (toString n).toList

/-- Rendering of a millisecond count as seconds with three decimals, the
model of Rust's `{:.3}` formatting of the second-valued f64 clock. -/
def secsRepr (ms : Nat) : Str :=
  natToStr (ms / 1000) ++ '.' ::
    (if ms % 1000 < 10 then '0' :: '0' :: natToStr (ms % 1000)
     else if ms % 1000 < 100 then '0' :: natToStr (ms % 1000)
     else natToStr (ms % 1000))

/-- `segment_id` built by the ingestion loop:
`format!("{}:{}:{:.3}", conf_hex, user_hex, segment_start_time)`. -/
def mkSegmentId (roomHex userHex : Str) (startMs : Nat) : Str :=
  roomHex ++ ':' :: userHex ++ ':' :: secsRepr startMs

/-- One `VadEvent` handled inside the ingestion loop's event iteration:
`SpeechStart` records the utterance start and resets the partial clock;
`SpeechEnd` emits a FINAL segment whose `segment_id` is built from
`segment_start_time`. -/
def processEvent (roomHex userHex : Str) (time : Nat) (st : IngestState) :
    VadEvent → IngestState × List Segment
  | .speechStart => (⟨time, time⟩, [])
  | .speechEnd audio dur =>
    (st, [⟨audio, time - dur, time, true, mkSegmentId roomHex userHex st.segmentStartTime⟩])

/-- One iteration of the ingestion loop after decoding and resampling: handle
every VAD event of the chunk, then emit a PARTIAL when speech is active, the
interval since `last_partial_at` has elapsed, and at least
`MIN_PARTIAL_SAMPLES` samples are buffered. -/
def processChunk (cfg : WorkerCfg) (roomHex userHex : Str) (st : IngestState)
    (obs : ChunkObs) : IngestState × List Segment :=
  let step := obs.events.foldl (fun acc ev =>
    let r := processEvent roomHex userHex obs.time acc.1 ev
    (r.1, acc.2 ++ r.2)) (st, ([] : List Segment))
  let st1 := step.1
  if obs.speechActive ∧ obs.time - st1.lastPartAt ≥ cfg.streamingIntervalMs
      ∧ obs.speechBuffer.length ≥ MIN_PARTIAL_SAMPLES then
    (⟨st1.segmentStartTime, obs.time⟩,
     step.2 ++ [⟨obs.speechBuffer, st1.segmentStartTime, obs.time, false,
                 mkSegmentId roomHex userHex st1.segmentStartTime⟩])
  else (st1, step.2)

/-- The ingestion loop over a sequence of decoded chunks. -/
def runIngestion (cfg : WorkerCfg) (roomHex userHex : Str) (st : IngestState) :
    List ChunkObs → IngestState × List Segment
  | [] => (st, [])
  | o :: t =>
    let r := processChunk cfg roomHex userHex st o
    let rest := runIngestion cfg roomHex userHex r.1 t
    (rest.1, r.2 ++ rest.2)

/-! ### ASR loop and hallucination filter — `worker.rs` -/

def toLowerStr (l : Str) : Str := l.map Char.toLower

/-- Rust `str::contains` (substring search). -/
def strContainsSub : Str → Str → Bool
  | [], pat => pat.isEmpty
  | c :: t, pat => strStartsWith (c :: t) pat || strContainsSub t pat

def isWsChar (c : Char) : Bool := c.isWhitespace

/-- Rust `str::trim`. -/
def trimStr (l : Str) : Str :=
  ((l.dropWhile isWsChar).reverse.dropWhile isWsChar).reverse

/-- `is_hallucination` from `worker.rs`. -/
def isHallucination (text : Str) : Bool :=
  let lower := toLowerStr text
  strContainsSub lower "[blank_audio]".toList ||
  strContainsSub lower "[silence]".toList ||
  strContainsSub lower "[music]".toList ||
  strContainsSub lower "(silence)".toList ||
  strContainsSub lower "(music)".toList ||
  lower == "you".toList ||
  lower == "thank you.".toList ||
  lower == "thanks for watching!".toList

/-- The hallucination markers the spec lists (a subset of what the code
filters), compared case-insensitively as the spec states. -/
def specMarker (text : Str) : Bool :=
  let lower := toLowerStr text
  strContainsSub lower "[blank_audio]".toList ||
  strContainsSub lower "[silence]".toList ||
  strContainsSub lower "[music]".toList ||
  lower == "you".toList ||
  lower == "thank you.".toList ||
  lower == "thanks for watching!".toList

/-- `TranscriptionResult` fields the ASR loop reads; `confidence` (f64) is
modelled opaquely and only passed through. -/
structure AsrResult where
  text : Str
  language : Option Str
  confidence : Option Nat
deriving DecidableEq

/-- Outcome of one `asr.transcribe` call; `ok` carries the measured inference
duration in milliseconds. -/
inductive AsrOutcome where
  | ok (res : AsrResult) (inferenceMs : Nat)
  | err
deriving DecidableEq

/-- `TranscriptEvent` from `crates/transcription/src/lib.rs` (ids as hex
strings, times in milliseconds, f64 confidence opaque). -/
structure TranscriptEvent where
  room_id : Str
  user_id : Str
  speaker_name : Str
  text : Str
  language : Option Str
  confidence : Option Nat
  start_time : Nat
  end_time : Nat
  inference_duration_ms : Nat
  is_final : Bool
  segment_id : Str
deriving DecidableEq

/-- One iteration of the ASR loop body: on success trim, drop empty or
hallucinated text, otherwise publish a `TranscriptEvent` carrying the
segment's `is_final` and `segment_id`; on error publish nothing. -/
def asrStep (roomHex userHex speaker : Str) (seg : Segment) :
    AsrOutcome → Option TranscriptEvent
  | .err => none
  | .ok res ms =>
    let text := trimStr res.text
    if text.isEmpty || isHallucination text then none
    else some ⟨roomHex, userHex, speaker, text, res.language, res.confidence,
               seg.startTime, seg.endTime, ms, seg.isFinal, seg.segmentId⟩

/-- The ASR loop over the segment channel, paired with each segment's
backend outcome; returns the published events in order. -/
def asrLoop (roomHex userHex speaker : Str)
    (inputs : List (Segment × AsrOutcome)) : List TranscriptEvent :=
  inputs.filterMap (fun p => asrStep roomHex userHex speaker p.1 p.2)

/-! ### TURN credentials — `handle_media_join` in `handler.rs` -/

/-- 32-bit rotate left (operands below `2^32`). -/
def rotl32 (n x : Nat) : Nat := ((x <<< n) % 4294967296) ||| (x >>> (32 - n))

def bytesToWord (a b c d : Nat) : Nat := a * 16777216 + b * 65536 + c * 256 + d

def wordBytes (w : Nat) : List Nat :=
  [(w >>> 24) % 256, (w >>> 16) % 256, (w >>> 8) % 256, w % 256]

/-- SHA-1 padding: `0x80`, zeros to 56 mod 64, 8-byte big-endian bit length. -/
def sha1Pad (msg : List Nat) : List Nat :=
  let bits := msg.length * 8
  msg ++ 128 :: List.replicate ((120 - ((msg.length + 1) % 64)) % 64) 0
      ++ (List.range 8).map (fun i => (bits >>> (8 * (7 - i))) % 256)

def blockWords (block : List Nat) : Array Nat :=
  ((List.range 16).map (fun j =>
    bytesToWord (block.getD (4 * j) 0) (block.getD (4 * j + 1) 0)
      (block.getD (4 * j + 2) 0) (block.getD (4 * j + 3) 0))).toArray

def sha1Schedule (w : Array Nat) : Array Nat :=
  (List.range 64).foldl (fun arr _ =>
    let n := arr.size
    arr.push (rotl32 1 ((arr.getD (n - 3) 0) ^^^ (arr.getD (n - 8) 0) ^^^
      (arr.getD (n - 14) 0) ^^^ (arr.getD (n - 16) 0)))) w

def sha1F (t b c d : Nat) : Nat :=
  if t < 20 then (b &&& c) ||| ((b ^^^ 4294967295) &&& d)
  else if t < 40 then b ^^^ c ^^^ d
  else if t < 60 then (b &&& c) ||| (b &&& d) ||| (c &&& d)
  else b ^^^ c ^^^ d

def sha1K (t : Nat) : Nat :=
  if t < 20 then 1518500249 else if t < 40 then 1859775393
  else if t < 60 then 2400959708 else 3395469782

def sha1Compress (h : Nat × Nat × Nat × Nat × Nat) (block : List Nat) :
    Nat × Nat × Nat × Nat × Nat :=
  let w := sha1Schedule (blockWords block)
  let r := (List.range 80).foldl (fun (st : Nat × Nat × Nat × Nat × Nat) t =>
    let temp := (rotl32 5 st.1 + sha1F t st.2.1 st.2.2.1 st.2.2.2.1 + st.2.2.2.2
                 + sha1K t + w.getD t 0) % 4294967296
    (temp, st.1, rotl32 30 st.2.1, st.2.2.1, st.2.2.2.1)) h
  ((h.1 + r.1) % 4294967296, (h.2.1 + r.2.1) % 4294967296,
   (h.2.2.1 + r.2.2.1) % 4294967296, (h.2.2.2.1 + r.2.2.2.1) % 4294967296,
   (h.2.2.2.2 + r.2.2.2.2) % 4294967296)

def chunks64 (l : List Nat) : List (List Nat) :=
  (List.range (l.length / 64)).map (fun i => (l.drop (64 * i)).take 64)

/-- SHA-1 of a byte sequence. -/
def sha1 (msg : List Nat) : List Nat :=
  let h := (chunks64 (sha1Pad msg)).foldl sha1Compress
    (1732584193, 4023233417, 2562383102, 271733878, 3285377520)
  wordBytes h.1 ++ wordBytes h.2.1 ++ wordBytes h.2.2.1 ++
    wordBytes h.2.2.2.1 ++ wordBytes h.2.2.2.2

/-- HMAC-SHA1 (block size 64). -/
def hmacSha1 (key msg : List Nat) : List Nat :=
  let k0 := if 64 < key.length then sha1 key else key
  let k := k0 ++ List.replicate (64 - k0.length) 0
  sha1 ((k.map (fun b => b ^^^ 92)) ++ sha1 ((k.map (fun b => b ^^^ 54)) ++ msg))

def b64Alphabet : Str :=
  "ABCDEFGHIJKLMNOPQRSTUVWXYZabcdefghijklmnopqrstuvwxyz0123456789+/".toList

def b64Char (i : Nat) : Char := b64Alphabet.getD i 'A'

/-- Standard base64 with padding (`base64::engine::general_purpose::STANDARD`). -/
def base64Encode : List Nat → Str
  | [] => []
  | [a] => [b64Char (a / 4), b64Char ((a % 4) * 16), '=', '=']
  | [a, b] => [b64Char (a / 4), b64Char ((a % 4) * 16 + b / 16), b64Char ((b % 16) * 4), '=']
  | a :: b :: c :: t =>
    b64Char (a / 4) :: b64Char ((a % 4) * 16 + b / 16) ::
      b64Char ((b % 16) * 4 + c / 64) :: b64Char (c % 64) :: base64Encode t

/-- `str::as_bytes` for the ASCII strings involved here. -/
def strBytes (s : Str) : List Nat := s.map Char.toNat

/-- `turn` block of the settings struct. -/
structure TurnSettings where
  url : Option Str
  shared_secret : Option Str
  username : Option Str
  password : Option Str
deriving DecidableEq

/-- One entry of the `ice_servers` array sent in `media:transport_created`. -/
structure IceServer where
  urls : List Str
  username : Str
  credential : Str
deriving DecidableEq

/-- Rust `str::replace` (all occurrences), via fuel on the input length. -/
def replaceAllAux : Nat → Str → Str → Str → Str
  | 0, _, _, l => l
  | _ + 1, _, _, [] => []
  | fuel + 1, pat, rep, c :: t =>
    if pat ≠ [] ∧ strStartsWith (c :: t) pat then
      rep ++ replaceAllAux fuel pat rep ((c :: t).drop pat.length)
    else c :: replaceAllAux fuel pat rep t

def replaceAll (pat rep l : Str) : Str := replaceAllAux l.length pat rep l

/-- Rust `str::replacen(pat, rep, 1)`. -/
def replaceFirst : Str → Str → Str → Str
  | _, _, [] => []
  | pat, rep, c :: t =>
    if pat ≠ [] ∧ strStartsWith (c :: t) pat then rep ++ (c :: t).drop pat.length
    else c :: replaceFirst pat rep t

/-- The TURN URL variants built in `handle_media_join`: the base URL, plus —
when it is a `turn:` URL without an explicit transport — a TCP variant and a
TLS (`turns:`, port 5349) TCP variant. -/
def turnUrls (url : Str) : List Str :=
  if strStartsWith url "turn:".toList ∧ ¬ strContainsSub url "?transport=".toList then
    let turnsUrl := replaceAll ":3478".toList ":5349".toList
      (replaceFirst "turn:".toList "turns:".toList url)
    [url, url ++ "?transport=tcp".toList, turnsUrl ++ "?transport=tcp".toList]
  else [url]

/-- The `ice_servers` list computed in `handle_media_join`: with a URL and a
shared secret, ephemeral credentials (`username = "{expiry}:{user_hex}"`,
`expiry = now + 86400`, `credential = base64(HMAC-SHA1(secret, username))`);
with a URL but no secret, the configured static username/password; with no
URL, the empty list. -/
def mediaJoinIceServers (turn : TurnSettings) (userHex : Str) (now : Nat) :
    List IceServer :=
  match turn.url with
  | none => []
  | some url =>
    let pair :=
      match turn.shared_secret with
      | some secret =>
        let username := natToStr (now + 86400) ++ ':' :: userHex
        (username, base64Encode (hmacSha1 (strBytes secret) (strBytes username)))
      | none => (turn.username.getD [], turn.password.getD [])
    [⟨turnUrls url, pair.1, pair.2⟩]

/-! ## Supporting lemmas: association lists -/

section AssocLemmas

variable {K V : Type} [DecidableEq K]

theorem alookup_eq_none_iff {k : K} {l : List (K × V)} :
    alookup k l = none ↔ k ∉ akeys l := by
  induction l with
  | nil => simp [alookup, akeys]
  | cons h t ih =>
    obtain ⟨k', v⟩ := h
    by_cases hk : k' = k
    · subst hk; simp [alookup, akeys]
    · simp [alookup, akeys, hk, ih, Ne.symm hk]

theorem ainsert_of_lookup_none {k : K} {v : V} {l : List (K × V)}
    (h : alookup k l = none) : ainsert k v l = l ++ [(k, v)] := by
  induction l with
  | nil => rfl
  | cons hd t ih =>
    obtain ⟨k', v'⟩ := hd
    by_cases hk : k' = k
    · simp [alookup, hk] at h
    · simp only [alookup, hk, if_false] at h
      simp [ainsert, hk, ih h]

theorem aupdate_of_lookup_none {k : K} {f : V → V} {d : V} {l : List (K × V)}
    (h : alookup k l = none) : aupdate k f d l = l ++ [(k, f d)] := by
  induction l with
  | nil => rfl
  | cons hd t ih =>
    obtain ⟨k', v'⟩ := hd
    by_cases hk : k' = k
    · simp [alookup, hk] at h
    · simp only [alookup, hk, if_false] at h
      simp [aupdate, hk, ih h]

theorem aerase_append_self {k : K} {v : V} {l : List (K × V)}
    (h : alookup k l = none) : aerase k (l ++ [(k, v)]) = l := by
  induction l with
  | nil => simp [aerase]
  | cons hd t ih =>
    obtain ⟨k', v'⟩ := hd
    by_cases hk : k' = k
    · simp [alookup, hk] at h
    · simp only [alookup, hk, if_false] at h
      simp [aerase, hk, ih h]

theorem alookup_aupdate_self {k : K} {f : V → V} {d : V} {l : List (K × V)} :
    alookup k (aupdate k f d l) = some (f ((alookup k l).getD d)) := by
  induction l with
  | nil => simp [alookup, aupdate]
  | cons hd t ih =>
    obtain ⟨k', v'⟩ := hd
    by_cases hk : k' = k
    · simp [alookup, aupdate, hk]
    · simp [alookup, aupdate, hk, ih]

theorem alookup_aupdate_ne {k k' : K} {f : V → V} {d : V} {l : List (K × V)}
    (h : k' ≠ k) : alookup k' (aupdate k f d l) = alookup k' l := by
  induction l with
  | nil => simp [alookup, aupdate, Ne.symm h]
  | cons hd t ih =>
    obtain ⟨k'', v''⟩ := hd
    by_cases hk : k'' = k
    · subst hk; simp [alookup, aupdate, Ne.symm h]
    · by_cases hk2 : k'' = k'
      · subst hk2; simp [alookup, aupdate, hk]
      · simp [alookup, aupdate, hk, hk2, ih]

theorem alookup_aerase_ne {k k' : K} {l : List (K × V)} (h : k' ≠ k) :
    alookup k' (aerase k l) = alookup k' l := by
  induction l with
  | nil => rfl
  | cons hd t ih =>
    obtain ⟨k'', v''⟩ := hd
    by_cases hk : k'' = k
    · subst hk; simp [alookup, aerase, Ne.symm h]
    · by_cases hk2 : k'' = k'
      · subst hk2; simp [alookup, aerase, hk]
      · simp [alookup, aerase, hk, hk2, ih]

theorem aerase_sublist (k : K) (l : List (K × V)) : List.Sublist (aerase k l) l := by
  induction l with
  | nil => simp [aerase]
  | cons hd t ih =>
    obtain ⟨k', v'⟩ := hd
    by_cases hk : k' = k
    · simp only [aerase, hk, if_true]
      exact List.sublist_cons_self _ _
    · simp only [aerase, hk, if_false]
      exact ih.cons₂ _

theorem akeys_aerase_sublist (k : K) (l : List (K × V)) :
    List.Sublist (akeys (aerase k l)) (akeys l) :=
  (aerase_sublist k l).map Prod.fst

theorem alookup_aerase_self {k : K} {l : List (K × V)}
    (h : (akeys l).Nodup) : alookup k (aerase k l) = none := by
  induction l with
  | nil => rfl
  | cons hd t ih =>
    obtain ⟨k', v'⟩ := hd
    simp only [akeys, List.map_cons, List.nodup_cons] at h
    by_cases hk : k' = k
    · subst hk
      simp only [aerase, if_true]
      exact alookup_eq_none_iff.mpr h.1
    · simp [alookup, aerase, hk, ih h.2]

theorem alookup_aerase_none {k k' : K} {l : List (K × V)}
    (h : alookup k l = none) : alookup k (aerase k' l) = none := by
  rw [alookup_eq_none_iff] at h ⊢
  exact fun hm => h ((akeys_aerase_sublist k' l).mem hm)

theorem akeys_aerase_nodup {k : K} {l : List (K × V)}
    (h : (akeys l).Nodup) : (akeys (aerase k l)).Nodup :=
  h.sublist (akeys_aerase_sublist k l)

theorem aupdate_cancel {k : K} {v0 : V} {g : V → V} {d d' : V} {l : List (K × V)}
    (h : alookup k l = some v0) :
    aupdate k (fun _ => v0) d' (aupdate k g d l) = l := by
  induction l with
  | nil => simp [alookup] at h
  | cons hd t ih =>
    obtain ⟨k', v'⟩ := hd
    by_cases hk : k' = k
    · subst hk
      simp only [alookup, if_true, Option.some.injEq] at h
      simp [aupdate, h]
    · simp only [alookup, hk, if_false] at h
      simp [aupdate, hk, ih h]

theorem alookup_mem {k : K} {v : V} {l : List (K × V)}
    (h : alookup k l = some v) : (k, v) ∈ l := by
  induction l with
  | nil => simp [alookup] at h
  | cons hd t ih =>
    obtain ⟨k', v'⟩ := hd
    by_cases hk : k' = k
    · subst hk
      simp only [alookup, if_true, Option.some.injEq] at h
      simp [h]
    · simp only [alookup, hk, if_false] at h
      exact List.mem_cons_of_mem _ (ih h)

theorem aerase_decomp {k : K} {v : V} {l : List (K × V)}
    (h : alookup k l = some v) :
    ∃ l₁ l₂, l = l₁ ++ (k, v) :: l₂ ∧ aerase k l = l₁ ++ l₂ := by
  induction l with
  | nil => simp [alookup] at h
  | cons hd t ih =>
    obtain ⟨k', v'⟩ := hd
    by_cases hk : k' = k
    · subst hk
      simp only [alookup, if_true, Option.some.injEq] at h
      exact ⟨[], t, by simp [h], by simp [aerase]⟩
    · simp only [alookup, hk, if_false] at h
      obtain ⟨l₁, l₂, he, hr⟩ := ih h
      exact ⟨(k', v') :: l₁, l₂, by simp [he], by simp [aerase, hk, hr]⟩

theorem akeys_aupdate {k : K} {f : V → V} {d : V} {l : List (K × V)} :
    akeys (aupdate k f d l) = if k ∈ akeys l then akeys l else akeys l ++ [k] := by
  induction l with
  | nil => simp [aupdate, akeys]
  | cons hd t ih =>
    obtain ⟨k', v'⟩ := hd
    by_cases hk : k' = k
    · subst hk; simp [aupdate, akeys]
    · simp only [aupdate, hk, if_false]
      by_cases hm : k ∈ akeys t
      · simp only [akeys, List.map_cons] at ih hm ⊢
        rw [ih, if_pos hm, if_pos (List.mem_cons_of_mem _ hm)]
      · simp only [akeys, List.map_cons] at ih hm ⊢
        have hnc : k ∉ k' :: List.map Prod.fst t := by
          simp [List.mem_cons, Ne.symm hk, hm]
        rw [ih, if_neg hm, if_neg hnc, List.cons_append]

theorem alookup_filter_key {q : K → Bool} {k : K} {l : List (K × V)} :
    alookup k (l.filter (fun p => q p.1)) = if q k then alookup k l else none := by
  induction l with
  | nil => simp [alookup]
  | cons hd t ih =>
    obtain ⟨k', v'⟩ := hd
    by_cases hk : k' = k
    · subst hk
      by_cases hq : q k' <;> simp [List.filter_cons, hq, alookup, ih]
    · by_cases hq : q k' <;> simp [List.filter_cons, hq, alookup, hk, ih]

theorem aeraseAll_nil (l : List (K × V)) : aeraseAll ([] : List K) l = l := rfl

theorem aeraseAll_cons (k : K) (ks : List K) (l : List (K × V)) :
    aeraseAll (k :: ks) l = aeraseAll ks (aerase k l) := rfl

theorem aeraseAll_cons_ne {ks : List K} {k : K} {v : V} {t : List (K × V)}
    (h : ∀ k' ∈ ks, k' ≠ k) :
    aeraseAll ks ((k, v) :: t) = (k, v) :: aeraseAll ks t := by
  induction ks generalizing t with
  | nil => rfl
  | cons k0 ks ih =>
    have hk0 : k0 ≠ k := h k0 (List.mem_cons_self _ _)
    rw [aeraseAll_cons, aeraseAll_cons]
    have hne : ¬(k = k0) := fun hh => hk0 hh.symm
    have he : aerase k0 ((k, v) :: t) = (k, v) :: aerase k0 t := by
      simp [aerase, hne]
    rw [he, ih (fun k' hk' => h k' (List.mem_cons_of_mem _ hk'))]

theorem aeraseAll_lookup_none_of_none {k : K} {ks : List K} {l : List (K × V)}
    (h : alookup k l = none) : alookup k (aeraseAll ks l) = none := by
  induction ks generalizing l with
  | nil => exact h
  | cons k0 ks ih => exact ih (alookup_aerase_none h)

theorem aeraseAll_keys_nodup {ks : List K} {l : List (K × V)}
    (h : (akeys l).Nodup) : (akeys (aeraseAll ks l)).Nodup := by
  induction ks generalizing l with
  | nil => exact h
  | cons k0 ks ih => exact ih (akeys_aerase_nodup h)

theorem aeraseAll_lookup_none {k : K} {ks : List K} {l : List (K × V)}
    (hnd : (akeys l).Nodup) (hk : k ∈ ks) :
    alookup k (aeraseAll ks l) = none := by
  induction ks generalizing l with
  | nil => simp at hk
  | cons k0 ks ih =>
    rw [aeraseAll_cons]
    rcases List.mem_cons.mp hk with h | h
    · subst h
      exact aeraseAll_lookup_none_of_none (alookup_aerase_self hnd)
    · exact ih (akeys_aerase_nodup hnd) h

theorem aeraseAll_filter_key {q : K → Bool} {l : List (K × V)}
    (h : (akeys l).Nodup) :
    aeraseAll ((l.filter (fun p => q p.1)).map Prod.fst) l
      = l.filter (fun p => !(q p.1)) := by
  induction l with
  | nil => rfl
  | cons hd t ih =>
    obtain ⟨k, v⟩ := hd
    simp only [akeys, List.map_cons, List.nodup_cons] at h
    by_cases hq : q k
    · rw [List.filter_cons_of_pos (by simpa using hq), List.map_cons]
      rw [aeraseAll_cons]
      have : aerase k ((k, v) :: t) = t := by simp [aerase]
      rw [this]
      rw [List.filter_cons_of_neg (by simpa using hq)]
      exact ih h.2
    · rw [List.filter_cons_of_neg (by simpa using hq)]
      rw [aeraseAll_cons_ne]
      · rw [List.filter_cons_of_pos (by simpa using hq), ih h.2]
      · intro k' hk' he
        subst he
        exact h.1 (by
          have := List.mem_map.mp hk'
          obtain ⟨p, hp, hpe⟩ := this
          have := List.mem_filter.mp hp
          simpa [akeys, hpe] using List.mem_map_of_mem Prod.fst this.1)

end AssocLemmas

/-! ## Supporting lemmas: the registry invariant -/

theorem sendersOf_append (l₁ l₂ : List (ConnId × UserId × Sink)) (u : UserId) :
    sendersOf (l₁ ++ l₂) u = sendersOf l₁ u ++ sendersOf l₂ u := by
  simp [sendersOf, List.filterMap_append]

theorem sendersOf_cons_match (c : ConnId) (u : UserId) (s : Sink)
    (t : List (ConnId × UserId × Sink)) :
    sendersOf ((c, u, s) :: t) u = s :: sendersOf t u := by
  simp [sendersOf, List.filterMap_cons]

theorem sendersOf_cons_other {u u' : UserId} (h : u' ≠ u) (c : ConnId) (s : Sink)
    (t : List (ConnId × UserId × Sink)) :
    sendersOf ((c, u', s) :: t) u = sendersOf t u := by
  simp [sendersOf, List.filterMap_cons, h]

theorem mem_sendersOf {cm : List (ConnId × UserId × Sink)} {u : UserId} {s : Sink}
    (h : s ∈ sendersOf cm u) : ∃ c, (c, u, s) ∈ cm := by
  simp only [sendersOf, List.mem_filterMap] at h
  obtain ⟨e, he, hif⟩ := h
  obtain ⟨c, u', s'⟩ := e
  by_cases hm : u' = u
  · subst hm
    simp at hif
    exact ⟨c, hif ▸ he⟩
  · simp [hm] at hif

theorem sendersOf_sublist_sinks (cm : List (ConnId × UserId × Sink)) (u : UserId) :
    List.Sublist (sendersOf cm u) (cm.map (fun e => e.2.2)) := by
  induction cm with
  | nil => simp [sendersOf]
  | cons e t ih =>
    obtain ⟨c, u', s⟩ := e
    by_cases hm : u' = u
    · subst hm
      rw [sendersOf_cons_match, List.map_cons]
      exact ih.cons₂ _
    · rw [sendersOf_cons_other hm, List.map_cons]
      exact ih.cons _

theorem sendersOf_eq_userConns_map (cm : List (ConnId × UserId × Sink)) (u : UserId) :
    sendersOf cm u = (userConns cm u).map Prod.snd := by
  induction cm with
  | nil => rfl
  | cons e t ih =>
    obtain ⟨c, u', s⟩ := e
    simp only [sendersOf, userConns] at ih ⊢
    by_cases hm : u' = u
    · subst hm
      simp [List.filterMap_cons, ih]
    · simp [List.filterMap_cons, hm, ih]

theorem filter_ne_of_not_mem {s : Sink} {l : List Sink} (h : s ∉ l) :
    l.filter (fun x => x ≠ s) = l := by
  refine List.filter_eq_self.mpr (fun a ha => ?_)
  simp only [decide_eq_true_eq]
  exact fun he => h (he ▸ ha)

theorem filter_ne_middle {s : Sink} {a b : List Sink} (ha : s ∉ a) (hb : s ∉ b) :
    (a ++ s :: b).filter (fun x => x ≠ s) = a ++ b := by
  rw [List.filter_append, filter_ne_of_not_mem ha]
  have h1 : (s :: b).filter (fun x => x ≠ s) = b.filter (fun x => x ≠ s) := by
    simp [List.filter_cons]
  rw [h1, filter_ne_of_not_mem hb]

theorem nodup_append_singleton {α : Type} {l : List α} {a : α}
    (h : l.Nodup) (ha : a ∉ l) : (l ++ [a]).Nodup := by
  rw [List.nodup_append]
  refine ⟨h, List.nodup_singleton a, fun x hx hxa => ?_⟩
  simp only [List.mem_singleton] at hxa
  exact ha (hxa ▸ hx)

theorem sendersOf_aerase {cm : List (ConnId × UserId × Sink)} {c : ConnId}
    {u : UserId} {s : Sink}
    (hs : (cm.map (fun e => e.2.2)).Nodup)
    (hc : alookup c cm = some (u, s)) (u' : UserId) :
    sendersOf (aerase c cm) u'
      = if u' = u then (sendersOf cm u').filter (fun x => x ≠ s)
        else sendersOf cm u' := by
  obtain ⟨l₁, l₂, hdec, herase⟩ := aerase_decomp hc
  subst hdec
  rw [herase]
  have hmap : ((l₁ ++ (c, u, s) :: l₂).map (fun e => e.2.2))
      = l₁.map (fun e => e.2.2) ++ s :: l₂.map (fun e => e.2.2) := by
    simp
  rw [hmap] at hs
  have hnd := List.nodup_append.mp hs
  have hs2 : s ∉ l₂.map (fun e => e.2.2) := (List.nodup_cons.mp hnd.2.1).1
  have hs1 : s ∉ l₁.map (fun e => e.2.2) := by
    intro hmem
    exact (hnd.2.2 hmem (List.mem_cons_self _ _)).elim
  by_cases hu : u' = u
  · subst hu
    rw [if_pos rfl, sendersOf_append, sendersOf_append, sendersOf_cons_match,
      filter_ne_middle (fun hm => hs1 ((sendersOf_sublist_sinks l₁ u').mem hm))
        (fun hm => hs2 ((sendersOf_sublist_sinks l₂ u').mem hm))]
  · rw [if_neg hu, sendersOf_append, sendersOf_append,
      sendersOf_cons_other (fun h => hu h.symm)]

/-- The registry invariant tying the per-user vectors to the connection map:
nodup keys, globally distinct sender handles, per-user vectors agreeing with
the per-connection records, and no empty per-user vector. -/
structure WsInv (st : WsStorage) : Prop where
  connKeys : (akeys st.connections).Nodup
  cmKeys : (akeys st.connection_map).Nodup
  sinks : (st.connection_map.map (fun e => e.2.2)).Nodup
  senders : ∀ u, st.getSenders u = sendersOf st.connection_map u
  noEmpty : ∀ u, alookup u st.connections ≠ some []

/-- The registry states the server can produce: connections are added with a
fresh UUID connection id and a freshly allocated sender handle, and removed by
the owning socket task with its own (user, connection, sender) triple. -/
inductive Reachable : WsStorage → Prop
  | empty : Reachable WsStorage.empty
  | add {st : WsStorage} {u : UserId} {c : ConnId} {s : Sink} :
      Reachable st → alookup c st.connection_map = none →
      s ∉ st.connection_map.map (fun e => e.2.2) → Reachable (st.add u c s)
  | remove {st : WsStorage} {u : UserId} {c : ConnId} {s : Sink} :
      Reachable st → alookup c st.connection_map = some (u, s) →
      Reachable (st.remove u c s)

theorem wsInv_empty : WsInv WsStorage.empty := by
  refine ⟨?_, ?_, ?_, ?_, ?_⟩ <;>
    simp [WsStorage.empty, akeys, WsStorage.getSenders, sendersOf, alookup]

theorem wsInv_add {st : WsStorage} {u : UserId} {c : ConnId} {s : Sink}
    (hinv : WsInv st) (hc : alookup c st.connection_map = none)
    (hs : s ∉ st.connection_map.map (fun e => e.2.2)) :
    WsInv (st.add u c s) := by
  have hcm : (st.add u c s).connection_map = st.connection_map ++ [(c, u, s)] :=
    ainsert_of_lookup_none hc
  refine ⟨?_, ?_, ?_, ?_, ?_⟩
  · show (akeys (aupdate u (fun l => l ++ [s]) [] st.connections)).Nodup
    rw [akeys_aupdate]
    by_cases hm : u ∈ akeys st.connections
    · rw [if_pos hm]; exact hinv.connKeys
    · rw [if_neg hm]
      exact nodup_append_singleton hinv.connKeys hm
  · show (akeys (st.add u c s).connection_map).Nodup
    rw [hcm]
    have hcmem : c ∉ akeys st.connection_map := alookup_eq_none_iff.mp hc
    rw [akeys, List.map_append]
    exact nodup_append_singleton hinv.cmKeys hcmem
  · rw [hcm, List.map_append]
    exact nodup_append_singleton hinv.sinks hs
  · intro u'
    rw [hcm, sendersOf_append]
    by_cases hu : u' = u
    · subst hu
      show (alookup u' (aupdate u' (fun l => l ++ [s]) [] st.connections)).getD []
          = sendersOf st.connection_map u' ++ sendersOf [(c, u', s)] u'
      rw [alookup_aupdate_self, sendersOf_cons_match]
      have := hinv.senders u'
      simp only [WsStorage.getSenders] at this
      simp [this, sendersOf]
    · show (alookup u' (aupdate u (fun l => l ++ [s]) [] st.connections)).getD []
          = sendersOf st.connection_map u' ++ sendersOf [(c, u, s)] u'
      rw [alookup_aupdate_ne hu, sendersOf_cons_other (fun h => hu h.symm)]
      have := hinv.senders u'
      simp only [WsStorage.getSenders] at this
      simp [this, sendersOf]
  · intro u'
    by_cases hu : u' = u
    · subst hu
      show alookup u' (aupdate u' (fun l => l ++ [s]) [] st.connections) ≠ some []
      rw [alookup_aupdate_self]
      simp
    · show alookup u' (aupdate u (fun l => l ++ [s]) [] st.connections) ≠ some []
      rw [alookup_aupdate_ne hu]
      exact hinv.noEmpty u'

theorem wsInv_remove {st : WsStorage} {u : UserId} {c : ConnId} {s : Sink}
    (hinv : WsInv st) (hc : alookup c st.connection_map = some (u, s)) :
    WsInv (st.remove u c s) := by
  have hsm : s ∈ st.getSenders u := by
    rw [hinv.senders u]
    obtain ⟨l₁, l₂, hdec, _⟩ := aerase_decomp hc
    rw [hdec, sendersOf_append, sendersOf_cons_match]
    simp
  have hlu : ∃ l, alookup u st.connections = some l ∧ l = st.getSenders u ∧ l ≠ [] := by
    rcases h : alookup u st.connections with _ | l
    · exfalso
      simp [WsStorage.getSenders, h] at hsm
    · exact ⟨l, rfl, by simp [WsStorage.getSenders, h], by
        intro he
        subst he
        simp [WsStorage.getSenders, h] at hsm⟩
  obtain ⟨l, hl, hleq, hlne⟩ := hlu
  have hconn : (st.remove u c s).connections =
      (if (l.filter (fun s' => s' ≠ s)).isEmpty then aerase u st.connections
       else aupdate u (fun _ => l.filter (fun s' => s' ≠ s)) [] st.connections) := by
    simp [WsStorage.remove, hl]
  have hcm : (st.remove u c s).connection_map = aerase c st.connection_map := rfl
  have hsenders : ∀ u', (st.remove u c s).getSenders u'
      = sendersOf (aerase c st.connection_map) u' := by
    intro u'
    rw [sendersOf_aerase hinv.sinks hc u']
    show (alookup u' (st.remove u c s).connections).getD [] = _
    rw [hconn]
    by_cases hu : u' = u
    · subst hu
      rw [if_pos rfl]
      by_cases hemp : (l.filter (fun s' => s' ≠ s)).isEmpty
      · rw [if_pos hemp, alookup_aerase_self hinv.connKeys]
        have hfe : l.filter (fun s' => s' ≠ s) = [] := by
          simpa [List.isEmpty_iff] using hemp
        rw [hinv.senders u'] at hleq
        rw [← hleq, hfe]
        rfl
      · rw [if_neg hemp, alookup_aupdate_self]
        rw [hinv.senders u'] at hleq
        simp [← hleq]
    · rw [if_neg hu]
      by_cases hemp : (l.filter (fun s' => s' ≠ s)).isEmpty
      · rw [if_pos hemp, alookup_aerase_ne hu]
        have := hinv.senders u'
        simpa [WsStorage.getSenders] using this
      · rw [if_neg hemp, alookup_aupdate_ne hu]
        have := hinv.senders u'
        simpa [WsStorage.getSenders] using this
  refine ⟨?_, ?_, ?_, hsenders, ?_⟩
  · rw [hconn]
    by_cases hemp : (l.filter (fun s' => s' ≠ s)).isEmpty
    · rw [if_pos hemp]
      exact akeys_aerase_nodup hinv.connKeys
    · rw [if_neg hemp, akeys_aupdate]
      by_cases hm : u ∈ akeys st.connections
      · rw [if_pos hm]; exact hinv.connKeys
      · rw [if_neg hm]
        exact nodup_append_singleton hinv.connKeys hm
  · rw [hcm]
    exact akeys_aerase_nodup hinv.cmKeys
  · rw [hcm]
    exact hinv.sinks.sublist ((aerase_sublist c st.connection_map).map _)
  · intro u'
    rw [hconn]
    by_cases hu : u' = u
    · subst hu
      by_cases hemp : (l.filter (fun s' => s' ≠ s)).isEmpty
      · rw [if_pos hemp, alookup_aerase_self hinv.connKeys]
        simp
      · rw [if_neg hemp, alookup_aupdate_self]
        simp only [ne_eq, Option.some.injEq]
        intro hcon
        refine hemp ?_
        simp only [List.isEmpty_iff, List.filter_eq_nil_iff, decide_eq_true_eq]
        intro a ha
        have h2 := List.filter_eq_nil_iff.mp hcon a ha
        simpa using h2
    · by_cases hemp : (l.filter (fun s' => s' ≠ s)).isEmpty
      · rw [if_pos hemp, alookup_aerase_ne hu]
        exact hinv.noEmpty u'
      · rw [if_neg hemp, alookup_aupdate_ne hu]
        exact hinv.noEmpty u'

theorem reachable_inv {st : WsStorage} (h : Reachable st) : WsInv st := by
  induction h with
  | empty => exact wsInv_empty
  | add _ hc hs ih => exact wsInv_add ih hc hs
  | remove _ hc ih => exact wsInv_remove ih hc

theorem broadcastSinks_singleton (st : WsStorage) (u : UserId) :
    broadcastSinks st [u] = st.getSenders u := by
  simp [broadcastSinks]

theorem mem_broadcastSinks {st : WsStorage} {us : List UserId} {s : Sink} :
    s ∈ broadcastSinks st us ↔ ∃ u ∈ us, s ∈ st.getSenders u := by
  induction us with
  | nil => simp [broadcastSinks]
  | cons u t ih =>
    show s ∈ st.getSenders u ++ broadcastSinks st t ↔ _
    rw [List.mem_append, ih, List.exists_mem_cons_iff]

theorem senders_disjoint {st : WsStorage} (hinv : WsInv st) {u u' : UserId}
    (hne : u ≠ u') {s : Sink} (hs : s ∈ st.getSenders u) : s ∉ st.getSenders u' := by
  intro hs'
  rw [hinv.senders u] at hs
  rw [hinv.senders u'] at hs'
  obtain ⟨c₁, h₁⟩ := mem_sendersOf hs
  obtain ⟨c₂, h₂⟩ := mem_sendersOf hs'
  have heq := List.inj_on_of_nodup_map hinv.sinks h₁ h₂ rfl
  exact hne (congrArg (fun e => e.2.1) heq)

theorem aupdate_selfwrite {K V : Type} [DecidableEq K] {k : K} {v : V} {d : V}
    {l : List (K × V)} (h : alookup k l = some v) :
    aupdate k (fun _ => v) d l = l := by
  induction l with
  | nil => simp [alookup] at h
  | cons hd t ih =>
    obtain ⟨k', v'⟩ := hd
    by_cases hk : k' = k
    · subst hk
      simp only [alookup, if_true, Option.some.injEq] at h
      simp [aupdate, h]
    · simp only [alookup, hk, if_false] at h
      simp [aupdate, hk, ih h]

/-- `add` then `remove` with the same connection id and the pointer-identical
sender restores the registry state exactly, provided the connection id was
fresh, the sender was not already in the user's vector, and the user had no
(unreachable) empty vector entry. -/
theorem add_remove_cancel {st : WsStorage} {u : UserId} {c : ConnId} {s : Sink}
    (hc : alookup c st.connection_map = none)
    (hs : s ∉ st.getSenders u)
    (hne : ∀ l, alookup u st.connections = some l → l ≠ []) :
    (st.add u c s).remove u c s = st := by
  obtain ⟨conns, cm⟩ := st
  have hcm : (WsStorage.add ⟨conns, cm⟩ u c s).connection_map = cm ++ [(c, u, s)] :=
    ainsert_of_lookup_none hc
  have hcmr : aerase c (cm ++ [(c, u, s)]) = cm := aerase_append_self hc
  rcases h : alookup u conns with _ | l
  · -- the user had no vector: the add created it, the remove deletes it again
    have hlook : alookup u (WsStorage.add ⟨conns, cm⟩ u c s).connections = some [s] := by
      show alookup u (aupdate u (fun l => l ++ [s]) [] conns) = some [s]
      rw [alookup_aupdate_self, h]
      rfl
    have hupd : (WsStorage.add ⟨conns, cm⟩ u c s).connections = conns ++ [(u, [s])] := by
      show aupdate u (fun l => l ++ [s]) [] conns = _
      rw [aupdate_of_lookup_none h]
      rfl
    have hc1 : ((WsStorage.add ⟨conns, cm⟩ u c s).remove u c s).connections = conns := by
      simp only [WsStorage.remove, hlook]
      have hft : (([s] : List Sink).filter (fun s' => s' ≠ s)).isEmpty = true := by simp
      rw [if_pos hft, hupd]
      exact aerase_append_self h
    have hc2 : ((WsStorage.add ⟨conns, cm⟩ u c s).remove u c s).connection_map = cm := by
      show aerase c (WsStorage.add ⟨conns, cm⟩ u c s).connection_map = cm
      rw [hcm, hcmr]
    calc (WsStorage.add ⟨conns, cm⟩ u c s).remove u c s
        = ⟨((WsStorage.add ⟨conns, cm⟩ u c s).remove u c s).connections,
           ((WsStorage.add ⟨conns, cm⟩ u c s).remove u c s).connection_map⟩ := rfl
      _ = ⟨conns, cm⟩ := by rw [hc1, hc2]
  · -- the user already had a nonempty vector without `s`
    have hlne : l ≠ [] := hne l h
    have hsl : s ∉ l := by
      simpa [WsStorage.getSenders, h] using hs
    have hlook : alookup u (WsStorage.add ⟨conns, cm⟩ u c s).connections
        = some (l ++ [s]) := by
      show alookup u (aupdate u (fun l => l ++ [s]) [] conns) = some (l ++ [s])
      rw [alookup_aupdate_self, h]
      rfl
    have hfl : (l ++ [s]).filter (fun s' => s' ≠ s) = l := by
      have := filter_ne_middle (a := l) (b := []) hsl (by simp)
      simpa using this
    have hc1 : ((WsStorage.add ⟨conns, cm⟩ u c s).remove u c s).connections = conns := by
      simp only [WsStorage.remove, hlook]
      rw [hfl]
      have hie : ¬(l.isEmpty = true) := by
        cases l with
        | nil => exact (hlne rfl).elim
        | cons a t => simp
      rw [if_neg hie]
      exact aupdate_cancel h
    have hc2 : ((WsStorage.add ⟨conns, cm⟩ u c s).remove u c s).connection_map = cm := by
      show aerase c (WsStorage.add ⟨conns, cm⟩ u c s).connection_map = cm
      rw [hcm, hcmr]
    calc (WsStorage.add ⟨conns, cm⟩ u c s).remove u c s
        = ⟨((WsStorage.add ⟨conns, cm⟩ u c s).remove u c s).connections,
           ((WsStorage.add ⟨conns, cm⟩ u c s).remove u c s).connection_map⟩ := rfl
      _ = ⟨conns, cm⟩ := by rw [hc1, hc2]

/-! ## Claim theorems -/

/-- C3: after any sequence of registry `add`/`remove` operations, a broadcast
addressed to a user writes to exactly the sinks of that user's currently
registered connections (one per registered connection, no duplicates, no
others); and `remove` deletes the per-connection record and deletes the
per-user entry exactly when the user's sender vector becomes empty. -/
theorem claim_C3 (st : WsStorage) (h : Reachable st) (u : UserId) (c : ConnId)
    (s : Sink) (hreg : alookup c st.connection_map = some (u, s)) :
    (broadcastSinks st [u] = (userConns st.connection_map u).map Prod.snd
      ∧ (broadcastSinks st [u]).Nodup
      ∧ (broadcastSinks st [u]).length = (userConns st.connection_map u).length)
    ∧ ((st.remove u c s).getSenderByConnection c = none
      ∧ (alookup u (st.remove u c s).connections = none
          ↔ (st.getSenders u).filter (fun x => x ≠ s) = [])) := by
  have hinv := reachable_inv h
  refine ⟨⟨?_, ?_, ?_⟩, ?_, ?_⟩
  · rw [broadcastSinks_singleton, hinv.senders u, sendersOf_eq_userConns_map]
  · rw [broadcastSinks_singleton, hinv.senders u]
    exact hinv.sinks.sublist (sendersOf_sublist_sinks st.connection_map u)
  · rw [broadcastSinks_singleton, hinv.senders u, sendersOf_eq_userConns_map,
      List.length_map]
  · show (alookup c (aerase c st.connection_map)).map Prod.snd = none
    rw [alookup_aerase_self hinv.cmKeys]
    rfl
  · -- the user entry disappears exactly when the filtered vector is empty
    have hsm : s ∈ st.getSenders u := by
      rw [hinv.senders u]
      obtain ⟨l₁, l₂, hdec, _⟩ := aerase_decomp hreg
      rw [hdec, sendersOf_append, sendersOf_cons_match]
      simp
    rcases hl : alookup u st.connections with _ | l
    · exfalso
      simp [WsStorage.getSenders, hl] at hsm
    · have hleq : st.getSenders u = l := by simp [WsStorage.getSenders, hl]
      have hconn : (st.remove u c s).connections =
          (if (l.filter (fun s' => s' ≠ s)).isEmpty then aerase u st.connections
           else aupdate u (fun _ => l.filter (fun s' => s' ≠ s)) [] st.connections) := by
        simp [WsStorage.remove, hl]
      rw [hconn, hleq]
      by_cases hemp : (l.filter (fun s' => s' ≠ s)).isEmpty
      · rw [if_pos hemp, alookup_aerase_self hinv.connKeys]
        constructor
        · intro _
          simpa [List.isEmpty_iff] using hemp
        · intro _
          rfl
      · rw [if_neg hemp, alookup_aupdate_self]
        constructor
        · intro hcon
          exact absurd hcon (by simp)
        · intro hfe
          exact absurd hfe (by simpa [List.isEmpty_iff] using hemp)

/-- C3 witness: a concrete reachable registry with two connections of user 5;
the broadcast writes to both sinks and removing one connection keeps the user
entry. -/
theorem claim_C3_witness :
    let st := (WsStorage.empty.add 5 ('a' :: []) 10).add 5 ('b' :: []) 11
    (broadcastSinks st [5] = (userConns st.connection_map 5).map Prod.snd
      ∧ (broadcastSinks st [5]).Nodup
      ∧ (broadcastSinks st [5]).length = (userConns st.connection_map 5).length)
    ∧ ((st.remove 5 ('b' :: []) 11).getSenderByConnection ('b' :: []) = none
      ∧ (alookup 5 (st.remove 5 ('b' :: []) 11).connections = none
          ↔ (st.getSenders 5).filter (fun x => x ≠ 11) = [])) :=
  claim_C3 _
    (Reachable.add
      (Reachable.add Reachable.empty (by decide) (by decide))
      (by decide) (by decide))
    5 ('b' :: []) 11 (by decide)

/-- C10: on any realisable registry state in which the connection id is
unregistered and the sender handle is not in the user's vector, `add` then
`remove` with the pointer-identical sender restores `get_senders`,
`get_sender_by_connection`, `all_user_ids` and `connection_count` exactly;
removing with a non-identical sender handle deletes the connection record but
leaves the user's sender vector unchanged. -/
theorem claim_C10 (st : WsStorage) (u : UserId) (c : ConnId) (s s' : Sink)
    (hc : alookup c st.connection_map = none)
    (hs : s ∉ st.getSenders u)
    (hne : ∀ l, alookup u st.connections = some l → l ≠ [])
    (hs' : s' ∉ st.getSenders u) (hss' : s' ≠ s) :
    (((st.add u c s).remove u c s).getSenders u = st.getSenders u
      ∧ ((st.add u c s).remove u c s).getSenderByConnection c
          = st.getSenderByConnection c
      ∧ ((st.add u c s).remove u c s).allUserIds = st.allUserIds
      ∧ ((st.add u c s).remove u c s).connectionCount = st.connectionCount)
    ∧ (((st.add u c s).remove u c s').getSenderByConnection c = none
      ∧ ((st.add u c s).remove u c s').getSenders u = (st.add u c s).getSenders u) := by
  have hcancel := add_remove_cancel hc hs hne
  refine ⟨⟨by rw [hcancel], by rw [hcancel], by rw [hcancel], by rw [hcancel]⟩, ?_, ?_⟩
  · show (alookup c (aerase c (st.add u c s).connection_map)).map Prod.snd = none
    have hcm : (st.add u c s).connection_map = st.connection_map ++ [(c, u, s)] :=
      ainsert_of_lookup_none hc
    rw [hcm, aerase_append_self hc, hc]
    rfl
  · have hlook : alookup u (st.add u c s).connections
        = some (st.getSenders u ++ [s]) := by
      show alookup u (aupdate u (fun l => l ++ [s]) [] st.connections)
          = some (st.getSenders u ++ [s])
      rw [alookup_aupdate_self]
      rfl
    have hsl : s' ∉ st.getSenders u ++ [s] := by
      intro hm
      rcases List.mem_append.mp hm with hm | hm
      · exact hs' hm
      · simp at hm
        exact hss' hm
    have hfl : (st.getSenders u ++ [s]).filter (fun x => x ≠ s')
        = st.getSenders u ++ [s] := filter_ne_of_not_mem hsl
    have hconn : ((st.add u c s).remove u c s').connections
        = (st.add u c s).connections := by
      show (match alookup u (st.add u c s).connections with
        | none => (st.add u c s).connections
        | some l0 =>
          if (l0.filter (fun x => x ≠ s')).isEmpty
          then aerase u (st.add u c s).connections
          else aupdate u (fun _ => l0.filter (fun x => x ≠ s')) []
            (st.add u c s).connections) = (st.add u c s).connections
      rw [hlook]
      simp only [hfl]
      have hie : (st.getSenders u ++ [s]).isEmpty = false := by
        simp [List.isEmpty_iff]
      simp only [hie, Bool.false_eq_true, if_false]
      exact aupdate_selfwrite hlook
    show (alookup u ((st.add u c s).remove u c s').connections).getD [] = _
    rw [hconn]
    rfl

/-- C10 witness: user 1 with one sender 10; connection `"d"` with sender 11 is
added and removed (both with the identical handle and with a different one). -/
theorem claim_C10_witness :
    let st := WsStorage.empty.add 1 ('e' :: []) 10
    (((st.add 1 ('d' :: []) 11).remove 1 ('d' :: []) 11).getSenders 1 = st.getSenders 1
      ∧ ((st.add 1 ('d' :: []) 11).remove 1 ('d' :: []) 11).getSenderByConnection ('d' :: [])
          = st.getSenderByConnection ('d' :: [])
      ∧ ((st.add 1 ('d' :: []) 11).remove 1 ('d' :: []) 11).allUserIds = st.allUserIds
      ∧ ((st.add 1 ('d' :: []) 11).remove 1 ('d' :: []) 11).connectionCount
          = st.connectionCount)
    ∧ (((st.add 1 ('d' :: []) 11).remove 1 ('d' :: []) 12).getSenderByConnection ('d' :: []) = none
      ∧ ((st.add 1 ('d' :: []) 11).remove 1 ('d' :: []) 12).getSenders 1
          = (st.add 1 ('d' :: []) 11).getSenders 1) :=
  claim_C10 _ 1 ('d' :: []) 11 12 (by decide) (by decide)
    (by decide) (by decide) (by decide)

/-- C1 counterexample: with user 7 holding the single connection `"c"` whose
sink is 42, the pong reply to that connection's own ping is written to sink
42, the presence broadcast reaches sink 42, and the transcript broadcast
targets the originating connection itself — so the claim that every fan-out
path excludes the originating connection fails. -/
theorem claim_C1_cex :
    (42 ∈ pongSinks (WsStorage.empty.add 7 ('c' :: []) 42) 7)
    ∧ (42 ∈ presenceSinks (WsStorage.empty.add 7 ('c' :: []) 42))
    ∧ (('c' :: []) ∈ transcriptTargets ⟨[(('r' :: []), [('c' :: [])])]⟩ ('r' :: [])) := by
  decide

/-- C1 amended: the media fan-out paths (`media:new_producer`,
`media:producer_closed`, `media:peer_left`) exclude the originating connection
by filtering on connection id, and typing events exclude the sender's user id
(hence the originating connection); but the pong reply goes to all of the
sender's own connections, and the transcript broadcast targets every
participant of the room, the originating connection included. -/
theorem claim_C1_amended (st : WsStorage) (h : Reachable st) :
    (∀ (rs : RoomsState) (room : Str) (c : ConnId),
        c ∉ getOtherConnectionIds rs room c)
    ∧ (∀ (members : List UserId) (u : UserId) (s : Sink),
        s ∈ st.getSenders u → s ∉ typingSinks st members u)
    ∧ (∀ u, pongSinks st u = st.getSenders u)
    ∧ (∀ (rs : RoomsState) (room : Str) (c : ConnId),
        c ∈ (alookup room rs.rooms).getD [] → c ≠ [] →
        c ∈ transcriptTargets rs room) := by
  have hinv := reachable_inv h
  refine ⟨?_, ?_, ?_, ?_⟩
  · intro rs room c hmem
    have := List.of_mem_filter hmem
    simp at this
  · intro members u s hs hmem
    obtain ⟨u', hu', hsu'⟩ := mem_broadcastSinks.mp hmem
    have hne : u' ≠ u := by
      have := List.of_mem_filter hu'
      simpa using this
    exact senders_disjoint hinv hne hsu' hs
  · intro u
    exact broadcastSinks_singleton st u
  · intro rs room c hp hc
    exact List.mem_filter.mpr ⟨hp, by simpa using hc⟩

theorem count_eq_one_of_nodup_mem {p : ConnId} {l : List ConnId}
    (hnd : l.Nodup) (hm : p ∈ l) : l.count p = 1 := by
  induction l with
  | nil => simp at hm
  | cons a t ih =>
    obtain ⟨hna, hndt⟩ := List.nodup_cons.mp hnd
    rcases List.mem_cons.mp hm with he | hm'
    · subst he
      have hz : t.count p = 0 := List.count_eq_zero.mpr hna
      simp [List.count_cons, hz]
    · have hne : ¬(a == p) := by
        simp only [beq_iff_eq]
        intro he
        subst he
        exact hna hm'
      simp [List.count_cons, ih hndt hm', hne]

theorem aerase_of_lookup_none {K V : Type} [DecidableEq K] {k : K}
    {l : List (K × V)} (h : alookup k l = none) : aerase k l = l := by
  induction l with
  | nil => rfl
  | cons hd t ih =>
    obtain ⟨k', v'⟩ := hd
    by_cases hk : k' = k
    · simp [alookup, hk] at h
    · simp only [alookup, hk, if_false] at h
      simp [aerase, hk, ih h]

/-- Evaluation of the disconnect cleanup when the connection is in room
`rid`: the registry entry is removed, the connection's playback workers are
stopped, the participant is closed, and the trace lists the steps in the
source's order with one `media:peer_left` per remaining peer. -/
theorem wsCleanup_eval (srv : ServerState) (u : UserId) (c : ConnId) (s : Sink)
    (rid : Str) (hroom : getConnectionRoom srv.rooms c = some rid) :
    wsCleanup srv u c s =
      (⟨srv.ws.remove u c s, aerase c srv.playbacks,
        aeraseAll ((alookup c srv.playbacks).getD []) srv.engineWorkers,
        closeParticipant srv.rooms rid c⟩,
       CleanupAction.removeRegistry u c
         :: ((alookup c srv.playbacks).getD []).map CleanupAction.stopPlayback
       ++ CleanupAction.closeParticipantStep rid c
         :: (getOtherConnectionIds srv.rooms rid c).map
             (fun p => CleanupAction.sendPeerLeft p c)) := by
  have hrem : (if (getOtherConnectionIds srv.rooms rid c).isEmpty then []
      else (getOtherConnectionIds srv.rooms rid c).map
        (fun p => CleanupAction.sendPeerLeft p c))
      = (getOtherConnectionIds srv.rooms rid c).map
        (fun p => CleanupAction.sendPeerLeft p c) := by
    cases hE : getOtherConnectionIds srv.rooms rid c with
    | nil => simp
    | cons a t => simp
  rcases hpl : alookup c srv.playbacks with _ | pids
  · simp [wsCleanup, stopConnectionPlaybacks, hroom, hpl, hrem,
      aerase_of_lookup_none hpl, aeraseAll]
  · simp [wsCleanup, stopConnectionPlaybacks, hroom, hpl, hrem]

/-- C2: on socket close with connection `c` of user `u` in media room `rid`,
the cleanup (1) removes the registry entry, (2) stops every file-playback
worker started by `c`, then (3) computes the remaining peers, closes the
participant, and sends exactly one `media:peer_left` carrying `c` to each
remaining peer connection and to no other target, with no duplicates. -/
theorem claim_C2 (srv : ServerState) (u : UserId) (c : ConnId) (s : Sink)
    (rid : Str)
    (hroom : getConnectionRoom srv.rooms c = some rid)
    (hnd : ((alookup rid srv.rooms.rooms).getD []).Nodup)
    (hwk : (akeys srv.engineWorkers).Nodup) :
    (wsCleanup srv u c s).2
      = CleanupAction.removeRegistry u c
          :: ((alookup c srv.playbacks).getD []).map CleanupAction.stopPlayback
        ++ CleanupAction.closeParticipantStep rid c
          :: (getOtherConnectionIds srv.rooms rid c).map
              (fun p => CleanupAction.sendPeerLeft p c)
    ∧ (wsCleanup srv u c s).1.ws = srv.ws.remove u c s
    ∧ (∀ pid ∈ (alookup c srv.playbacks).getD [],
        alookup pid (wsCleanup srv u c s).1.engineWorkers = none)
    ∧ (getOtherConnectionIds srv.rooms rid c).Nodup
    ∧ c ∉ getOtherConnectionIds srv.rooms rid c
    ∧ (∀ p ∈ (alookup rid srv.rooms.rooms).getD [], p ≠ c →
        (getOtherConnectionIds srv.rooms rid c).count p = 1) := by
  rw [wsCleanup_eval srv u c s rid hroom]
  have hndr : (getOtherConnectionIds srv.rooms rid c).Nodup :=
    hnd.sublist (List.filter_sublist _)
  refine ⟨rfl, rfl, ?_, hndr, ?_, ?_⟩
  · intro pid hpid
    exact aeraseAll_lookup_none hwk hpid
  · intro hmem
    have := List.of_mem_filter hmem
    simp at this
  · intro p hp hpc
    have hpm : p ∈ getOtherConnectionIds srv.rooms rid c :=
      List.mem_filter.mpr ⟨hp, by simpa using hpc⟩
    exact count_eq_one_of_nodup_mem hndr hpm

/-- C2 witness: user 9's connection `"a"` in room `"r"` with peers `"b"` and
`"c"`, one tracked playback, one worker. -/
theorem claim_C2_witness :
    let srv : ServerState :=
      ⟨WsStorage.empty.add 9 ('a' :: []) 50,
       [(('a' :: []), [('p' :: [])])],
       [(('p' :: []), 77)],
       ⟨[(('r' :: []), [('a' :: []), ('b' :: []), ('c' :: [])])]⟩⟩
    (wsCleanup srv 9 ('a' :: []) 50).2
      = CleanupAction.removeRegistry 9 ('a' :: [])
          :: ((alookup ('a' :: []) srv.playbacks).getD []).map CleanupAction.stopPlayback
        ++ CleanupAction.closeParticipantStep ('r' :: []) ('a' :: [])
          :: (getOtherConnectionIds srv.rooms ('r' :: []) ('a' :: [])).map
              (fun p => CleanupAction.sendPeerLeft p ('a' :: []))
    ∧ (wsCleanup srv 9 ('a' :: []) 50).1.ws = srv.ws.remove 9 ('a' :: []) 50
    ∧ (∀ pid ∈ (alookup ('a' :: []) srv.playbacks).getD [],
        alookup pid (wsCleanup srv 9 ('a' :: []) 50).1.engineWorkers = none)
    ∧ (getOtherConnectionIds srv.rooms ('r' :: []) ('a' :: [])).Nodup
    ∧ ('a' :: []) ∉ getOtherConnectionIds srv.rooms ('r' :: []) ('a' :: [])
    ∧ (∀ p ∈ (alookup ('r' :: []) srv.rooms.rooms).getD [], p ≠ ('a' :: []) →
        (getOtherConnectionIds srv.rooms ('r' :: []) ('a' :: [])).count p = 1) :=
  claim_C2 _ 9 ('a' :: []) 50 ('r' :: []) (by decide) (by decide) (by decide)

/-- C1 amended witness: a concrete reachable registry and room. -/
theorem claim_C1_amended_witness :
    let st := WsStorage.empty.add 7 ('c' :: []) 42
    (∀ (rs : RoomsState) (room : Str) (c : ConnId),
        c ∉ getOtherConnectionIds rs room c)
    ∧ (∀ (members : List UserId) (u : UserId) (s : Sink),
        s ∈ st.getSenders u → s ∉ typingSinks st members u)
    ∧ (∀ u, pongSinks st u = st.getSenders u)
    ∧ (∀ (rs : RoomsState) (room : Str) (c : ConnId),
        c ∈ (alookup room rs.rooms).getD [] → c ≠ [] →
        c ∈ transcriptTargets rs room) :=
  claim_C1_amended _
    (Reachable.add Reachable.empty (by decide) (by decide))

/-! ## Supporting lemmas: worker-key prefix matching -/

theorem strStartsWith_iff {l q : Str} : strStartsWith l q = true ↔ l.take q.length = q := by
  simp [strStartsWith]

theorem take_len_append (r rest : Str) : (r ++ rest).take r.length = r := by
  rw [List.take_append_eq_append_take, List.take_length, Nat.sub_self, List.take_zero,
    List.append_nil]

theorem fileColon_eq : fileColon = 'f' :: 'i' :: 'l' :: 'e' :: ':' :: [] := by decide

theorem startsWith_live_iff {r pr room : Str} (hr : r.length = 24)
    (hroom : room.length = 24) :
    strStartsWith (mkLiveKey r pr) room = true ↔ r = room := by
  rw [strStartsWith_iff]
  show (r ++ ':' :: pr).take room.length = room ↔ r = room
  rw [hroom, ← hr, take_len_append]

theorem not_startsWith_file {r x room : Str} (hroom : isHexId room) :
    ¬ strStartsWith (mkFileKey r x) room = true := by
  intro hsw
  rw [strStartsWith_iff] at hsw
  obtain ⟨h24, hhex⟩ := hroom
  have hi : ('i' : Char) ∈ (mkFileKey r x).take room.length := by
    show ('i' : Char) ∈ (fileColon ++ (r ++ ':' :: x)).take room.length
    rw [List.take_append_eq_append_take]
    refine List.mem_append.mpr (Or.inl ?_)
    rw [fileColon_eq, h24]
    decide
  rw [hsw] at hi
  exact absurd (hhex 'i' hi) (by decide)

theorem not_startsWith_live_filePfx {r pr room : Str} (hr : isHexId r) :
    ¬ strStartsWith (mkLiveKey r pr) (fileColon ++ room) = true := by
  intro hsw
  rw [strStartsWith_iff] at hsw
  obtain ⟨h24, hhex⟩ := hr
  have h1 := congrArg (fun l => l[1]?) hsw
  simp only at h1
  have hlf : ('f' :: 'i' :: 'l' :: 'e' :: ':' :: ([] : Str)).length = 5 := rfl
  have hlen1 : (1 : Nat) < (fileColon ++ room).length := by
    rw [fileColon_eq, List.length_append, hlf]
    omega
  rw [List.getElem?_take_of_lt hlen1] at h1
  have hl : (mkLiveKey r pr)[1]? = r[1]? := by
    show (r ++ ':' :: pr)[1]? = r[1]?
    exact List.getElem?_append_left (by omega)
  have hrhs : (fileColon ++ room)[1]? = some 'i' := by
    rw [fileColon_eq]
    rfl
  rw [hl, hrhs] at h1
  obtain ⟨hlt, hgi⟩ := List.getElem?_eq_some_iff.mp h1
  have hmem : ('i' : Char) ∈ r := hgi ▸ List.getElem_mem hlt
  exact absurd (hhex 'i' hmem) (by decide)

theorem startsWith_file_filePfx_iff {r x room : Str} (hr : r.length = 24)
    (hroom : room.length = 24) :
    strStartsWith (mkFileKey r x) (fileColon ++ room) = true ↔ r = room := by
  rw [strStartsWith_iff]
  show (fileColon ++ (r ++ ':' :: x)).take (fileColon ++ room).length = fileColon ++ room
      ↔ r = room
  rw [List.length_append, List.take_append_eq_append_take,
    List.take_of_length_le (Nat.le_add_right _ _), Nat.add_sub_cancel_left,
    List.append_right_inj, hroom, ← hr, take_len_append]

theorem disableKeyHit_live_iff {r pr room : Str} (hr : isHexId r)
    (hroom : isHexId room) :
    disableKeyHit room (mkLiveKey r pr) = true ↔ r = room := by
  unfold disableKeyHit
  rw [Bool.or_eq_true]
  constructor
  · rintro (h | h)
    · exact (startsWith_live_iff hr.1 hroom.1).mp h
    · exact absurd h (not_startsWith_live_filePfx hr)
  · intro he
    exact Or.inl ((startsWith_live_iff hr.1 hroom.1).mpr he)

theorem disableKeyHit_file_iff {r x room : Str} (hr : r.length = 24)
    (hroom : isHexId room) :
    disableKeyHit room (mkFileKey r x) = true ↔ r = room := by
  unfold disableKeyHit
  rw [Bool.or_eq_true]
  constructor
  · rintro (h | h)
    · exact absurd h (not_startsWith_file hroom)
    · exact (startsWith_file_filePfx_iff hr hroom.1).mp h
  · intro he
    exact Or.inr ((startsWith_file_filePfx_iff hr hroom.1).mpr he)

/-- C6: `disable_room(room)` removes the room's model selection, removes
exactly the workers whose key matches the room prefix — both live
`"{room}:{producer}"` keys and `"file:{room}:{uuid}"` playback keys — and
clears the room's broadcast flag, while every other room's model selection,
workers and broadcast flag are unchanged. -/
theorem claim_C6 (e : EngineState) (room : Str)
    (hroom : isHexId room)
    (hwk : (akeys e.workers).Nodup)
    (hmk : (akeys e.roomModels).Nodup) :
    ((disableRoom e room).workers
        = e.workers.filter (fun p => !(disableKeyHit room p.1)))
    ∧ alookup room (disableRoom e room).roomModels = none
    ∧ (∀ r, r ≠ room →
        alookup r (disableRoom e room).roomModels = alookup r e.roomModels)
    ∧ (∀ pr, alookup (mkLiveKey room pr) (disableRoom e room).workers = none)
    ∧ (∀ x, alookup (mkFileKey room x) (disableRoom e room).workers = none)
    ∧ (∀ r pr, isHexId r → r ≠ room →
        alookup (mkLiveKey r pr) (disableRoom e room).workers
          = alookup (mkLiveKey r pr) e.workers)
    ∧ (∀ r x, r.length = 24 → r ≠ room →
        alookup (mkFileKey r x) (disableRoom e room).workers
          = alookup (mkFileKey r x) e.workers)
    ∧ room ∉ (disableRoom e room).broadcastActive
    ∧ (∀ r, r ≠ room →
        (r ∈ (disableRoom e room).broadcastActive ↔ r ∈ e.broadcastActive)) := by
  have hw : (disableRoom e room).workers
      = e.workers.filter (fun p => !(disableKeyHit room p.1)) := by
    show aeraseAll ((e.workers.filter (fun p => disableKeyHit room p.1)).map Prod.fst)
        e.workers = _
    exact aeraseAll_filter_key hwk
  refine ⟨hw, ?_, ?_, ?_, ?_, ?_, ?_, ?_, ?_⟩
  · exact alookup_aerase_self hmk
  · intro r hr
    exact alookup_aerase_ne hr
  · intro pr
    rw [hw, alookup_filter_key (q := fun a => !(disableKeyHit room a))]
    have hhit : disableKeyHit room (mkLiveKey room pr) = true :=
      (disableKeyHit_live_iff hroom hroom).mpr rfl
    simp [hhit]
  · intro x
    rw [hw, alookup_filter_key (q := fun a => !(disableKeyHit room a))]
    have hhit : disableKeyHit room (mkFileKey room x) = true :=
      (disableKeyHit_file_iff hroom.1 hroom).mpr rfl
    simp [hhit]
  · intro r pr hr hne
    rw [hw, alookup_filter_key (q := fun a => !(disableKeyHit room a))]
    have hhit : ¬ disableKeyHit room (mkLiveKey r pr) = true := by
      rw [disableKeyHit_live_iff hr hroom]
      exact hne
    simp [hhit]
  · intro r x hr hne
    rw [hw, alookup_filter_key (q := fun a => !(disableKeyHit room a))]
    have hhit : ¬ disableKeyHit room (mkFileKey r x) = true := by
      rw [disableKeyHit_file_iff hr hroom]
      exact hne
    simp [hhit]
  · intro hmem
    have := List.of_mem_filter hmem
    simp at this
  · intro r hne
    constructor
    · intro hmem
      exact (List.mem_filter.mp hmem).1
    · intro hmem
      exact List.mem_filter.mpr ⟨hmem, by simpa using hne⟩

/-- C6 witness: two rooms (24 hex chars each), one live worker and one file
worker per room; disabling the first room leaves the second intact. -/
theorem claim_C6_witness :
    let rA : Str := "aaaaaaaaaaaaaaaaaaaaaaaa".toList
    let rB : Str := "bbbbbbbbbbbbbbbbbbbbbbbb".toList
    let e : EngineState :=
      ⟨[(rA, "whisper".toList), (rB, "canary".toList)],
       [(mkLiveKey rA ('p' :: []), 1), (mkFileKey rA ('u' :: []), 2),
        (mkLiveKey rB ('p' :: []), 3), (mkFileKey rB ('u' :: []), 4)],
       [rA, rB]⟩
    ((disableRoom e rA).workers
        = e.workers.filter (fun p => !(disableKeyHit rA p.1)))
    ∧ alookup rA (disableRoom e rA).roomModels = none
    ∧ (∀ r, r ≠ rA →
        alookup r (disableRoom e rA).roomModels = alookup r e.roomModels)
    ∧ (∀ pr, alookup (mkLiveKey rA pr) (disableRoom e rA).workers = none)
    ∧ (∀ x, alookup (mkFileKey rA x) (disableRoom e rA).workers = none)
    ∧ (∀ r pr, isHexId r → r ≠ rA →
        alookup (mkLiveKey r pr) (disableRoom e rA).workers
          = alookup (mkLiveKey r pr) e.workers)
    ∧ (∀ r x, r.length = 24 → r ≠ rA →
        alookup (mkFileKey r x) (disableRoom e rA).workers
          = alookup (mkFileKey r x) e.workers)
    ∧ rA ∉ (disableRoom e rA).broadcastActive
    ∧ (∀ r, r ≠ rA →
        (r ∈ (disableRoom e rA).broadcastActive ↔ r ∈ e.broadcastActive)) :=
  claim_C6 _ _ (by decide) (by decide) (by decide)

/-! ## C8: the broadcast-task compare-and-set -/

theorem casRun_mem {e : EngineState} {room : Str} (h : room ∈ e.broadcastActive) :
    ∀ n, casRun e room n = (List.replicate n false, e)
  | 0 => rfl
  | n + 1 => by
    show (let r := tryStartBroadcast e room
          let rest := casRun r.2 room n
          (r.1 :: rest.1, rest.2)) = _
    rw [show tryStartBroadcast e room = (false, e) from by simp [tryStartBroadcast, h]]
    simp only []
    rw [casRun_mem h n]
    rfl

/-- C8: with the room's broadcast flag clear, of `n ≥ 1` successive
`try_start_broadcast` calls with no intervening `clear_broadcast`, exactly one
returns true; consequently two successive `spawn_transcript_broadcast` calls
(two enables for the same room) spawn exactly one broadcast task. -/
theorem claim_C8 (e : EngineState) (room : Str) (n : Nat)
    (h : room ∉ e.broadcastActive) (hn : 1 ≤ n) :
    ((casRun e room n).1.count true = 1)
    ∧ (spawnTranscriptBroadcast e room).1 = true
    ∧ (spawnTranscriptBroadcast (spawnTranscriptBroadcast e room).2 room).1 = false := by
  obtain ⟨m, rfl⟩ : ∃ m, n = m + 1 := ⟨n - 1, by omega⟩
  have ht : tryStartBroadcast e room
      = (true, { e with broadcastActive := room :: e.broadcastActive }) := by
    simp [tryStartBroadcast, h]
  have hmem : room ∈ room :: e.broadcastActive := List.mem_cons_self _ _
  refine ⟨?_, ?_, ?_⟩
  · show (let r := tryStartBroadcast e room
          let rest := casRun r.2 room m
          (r.1 :: rest.1, rest.2)).1.count true = 1
    rw [ht]
    simp only []
    rw [casRun_mem hmem m]
    simp [List.count_cons, List.count_replicate]
  · show (tryStartBroadcast e room).1 = true
    rw [ht]
  · show (tryStartBroadcast (tryStartBroadcast e room).2 room).1 = false
    rw [ht]
    simp [tryStartBroadcast, hmem]

/-- C8 witness: an engine with no active broadcast for room `"r"`, three
successive calls. -/
theorem claim_C8_witness :
    ((casRun ⟨[], [], []⟩ ('r' :: []) 3).1.count true = 1)
    ∧ (spawnTranscriptBroadcast ⟨[], [], []⟩ ('r' :: [])).1 = true
    ∧ (spawnTranscriptBroadcast
        (spawnTranscriptBroadcast ⟨[], [], []⟩ ('r' :: [])).2 ('r' :: [])).1 = false :=
  claim_C8 ⟨[], [], []⟩ ('r' :: []) 3 (by decide) (by decide)

/-! ## C7: the PARTIAL emission condition -/

/-- C7: in a chunk with no VAD transition, the ingestion loop emits a PARTIAL
exactly when speech is active, the configured interval has elapsed since the
last partial, and at least `MIN_PARTIAL_SAMPLES = 8000` samples (0.5 s at
16 kHz) are buffered; the PARTIAL carries the buffer-so-far and the current
utterance's `segment_id`. -/
theorem claim_C7 (cfg : WorkerCfg) (r u : Str) (st : IngestState) (obs : ChunkObs)
    (h : obs.events = []) :
    MIN_PARTIAL_SAMPLES = 8000
    ∧ processChunk cfg r u st obs =
      (if obs.speechActive ∧ obs.time - st.lastPartAt ≥ cfg.streamingIntervalMs
          ∧ obs.speechBuffer.length ≥ MIN_PARTIAL_SAMPLES then
        (⟨st.segmentStartTime, obs.time⟩,
         [⟨obs.speechBuffer, st.segmentStartTime, obs.time, false,
           mkSegmentId r u st.segmentStartTime⟩])
      else (st, [])) := by
  refine ⟨rfl, ?_⟩
  unfold processChunk
  rw [h]
  show (if obs.speechActive ∧ obs.time - st.lastPartAt ≥ cfg.streamingIntervalMs
      ∧ obs.speechBuffer.length ≥ MIN_PARTIAL_SAMPLES then
      (⟨st.segmentStartTime, obs.time⟩,
       ([] : List Segment) ++ [⟨obs.speechBuffer, st.segmentStartTime, obs.time, false,
         mkSegmentId r u st.segmentStartTime⟩])
    else (st, [])) = _
  by_cases hc : obs.speechActive ∧ obs.time - st.lastPartAt ≥ cfg.streamingIntervalMs
      ∧ obs.speechBuffer.length ≥ MIN_PARTIAL_SAMPLES
  · rw [if_pos hc, if_pos hc]
    rfl
  · rw [if_neg hc, if_neg hc]

/-- C7 witness: concrete chunk with 8000 buffered samples and an elapsed
interval, emitting the PARTIAL. -/
theorem claim_C7_witness :
    MIN_PARTIAL_SAMPLES = 8000
    ∧ processChunk ⟨500⟩ ('r' :: []) ('u' :: []) ⟨100, 100⟩
        ⟨700, [], true, List.replicate 8000 0⟩ =
      (if (⟨700, [], true, List.replicate 8000 0⟩ : ChunkObs).speechActive
          ∧ (700 : Nat) - (⟨100, 100⟩ : IngestState).lastPartAt ≥ (500 : Nat)
          ∧ (List.replicate 8000 (0 : Int)).length ≥ MIN_PARTIAL_SAMPLES then
        (⟨100, 700⟩,
         [⟨List.replicate 8000 0, 100, 700, false, mkSegmentId ('r' :: []) ('u' :: []) 100⟩])
      else (⟨100, 100⟩, [])) :=
  claim_C7 ⟨500⟩ ('r' :: []) ('u' :: []) ⟨100, 100⟩
    ⟨700, [], true, List.replicate 8000 0⟩ rfl

/-! ## C9: published transcript events -/

theorem specMarker_imp_isHallucination {t : Str} (h : specMarker t = true) :
    isHallucination t = true := by
  unfold specMarker at h
  unfold isHallucination
  simp only [Bool.or_eq_true] at h ⊢
  tauto

/-- C9: every event published by the ASR loop carries the trimmed, non-empty
backend text, which matches none of the spec's hallucination markers, and its
`is_final` (and `segment_id`) equal those of the speech segment it was
transcribed from. -/
theorem claim_C9 (roomHex userHex speaker : Str)
    (inputs : List (Segment × AsrOutcome)) (e : TranscriptEvent)
    (he : e ∈ asrLoop roomHex userHex speaker inputs) :
    e.text ≠ [] ∧ specMarker e.text = false
    ∧ ∃ p ∈ inputs, ∃ res ms, p.2 = AsrOutcome.ok res ms
        ∧ e.text = trimStr res.text ∧ e.is_final = p.1.isFinal
        ∧ e.segment_id = p.1.segmentId := by
  unfold asrLoop at he
  obtain ⟨p, hp, hstep⟩ := List.mem_filterMap.mp he
  cases hout : p.2 with
  | ok res ms =>
    rw [hout] at hstep
    unfold asrStep at hstep
    have hstep' : (if ((trimStr res.text).isEmpty || isHallucination (trimStr res.text)) = true
        then none
        else some (⟨roomHex, userHex, speaker, trimStr res.text, res.language, res.confidence,
          p.1.startTime, p.1.endTime, ms, p.1.isFinal, p.1.segmentId⟩ : TranscriptEvent))
        = some e := hstep
    by_cases hcond : ((trimStr res.text).isEmpty || isHallucination (trimStr res.text)) = true
    · rw [if_pos hcond] at hstep'
      exact absurd hstep' (by simp)
    · rw [if_neg hcond] at hstep'
      have he' := Option.some.inj hstep'
      subst he'
      simp only [Bool.or_eq_true, not_or] at hcond
      obtain ⟨hne, hnh⟩ := hcond
      refine ⟨?_, ?_, p, hp, res, ms, hout, rfl, rfl, rfl⟩
      · show trimStr res.text ≠ []
        intro hnil
        exact hne (by simp [hnil])
      · show specMarker (trimStr res.text) = false
        cases hsm : specMarker (trimStr res.text) with
        | false => rfl
        | true => exact absurd (specMarker_imp_isHallucination hsm) hnh
  | err =>
    rw [hout] at hstep
    exact absurd hstep (by simp [asrStep])

/-- C9 witness: one segment whose backend result is `" hi "`; the published
event carries trimmed text `"hi"` with the segment's `is_final` and
`segment_id`. -/
theorem claim_C9_witness :
    (⟨'r' :: [], 'u' :: [], 's' :: [], 'h' :: 'i' :: [], none, none, 0, 10, 5, true,
      'd' :: []⟩ : TranscriptEvent).text ≠ []
    ∧ specMarker (⟨'r' :: [], 'u' :: [], 's' :: [], 'h' :: 'i' :: [], none, none, 0, 10, 5,
        true, 'd' :: []⟩ : TranscriptEvent).text = false
    ∧ ∃ p ∈ [((⟨[], 0, 10, true, 'd' :: []⟩ : Segment),
              AsrOutcome.ok ⟨' ' :: 'h' :: 'i' :: ' ' :: [], none, none⟩ 5)],
        ∃ res ms, p.2 = AsrOutcome.ok res ms
        ∧ (⟨'r' :: [], 'u' :: [], 's' :: [], 'h' :: 'i' :: [], none, none, 0, 10, 5, true,
            'd' :: []⟩ : TranscriptEvent).text = trimStr res.text
        ∧ (⟨'r' :: [], 'u' :: [], 's' :: [], 'h' :: 'i' :: [], none, none, 0, 10, 5, true,
            'd' :: []⟩ : TranscriptEvent).is_final = p.1.isFinal
        ∧ (⟨'r' :: [], 'u' :: [], 's' :: [], 'h' :: 'i' :: [], none, none, 0, 10, 5, true,
            'd' :: []⟩ : TranscriptEvent).segment_id = p.1.segmentId :=
  claim_C9 ('r' :: []) ('u' :: []) ('s' :: [])
    [((⟨[], 0, 10, true, 'd' :: []⟩ : Segment),
      AsrOutcome.ok ⟨' ' :: 'h' :: 'i' :: ' ' :: [], none, none⟩ 5)]
    _ (by decide)

/-! ## C4: segment-id stability over one utterance -/

theorem processChunk_noEvents (cfg : WorkerCfg) (r u : Str) (st : IngestState)
    (obs : ChunkObs) (h : obs.events = []) :
    processChunk cfg r u st obs =
      (if obs.speechActive ∧ obs.time - st.lastPartAt ≥ cfg.streamingIntervalMs
          ∧ obs.speechBuffer.length ≥ MIN_PARTIAL_SAMPLES then
        (⟨st.segmentStartTime, obs.time⟩,
         [⟨obs.speechBuffer, st.segmentStartTime, obs.time, false,
           mkSegmentId r u st.segmentStartTime⟩])
      else (st, [])) := by
  unfold processChunk
  rw [h]
  show (if obs.speechActive ∧ obs.time - st.lastPartAt ≥ cfg.streamingIntervalMs
      ∧ obs.speechBuffer.length ≥ MIN_PARTIAL_SAMPLES then
      (⟨st.segmentStartTime, obs.time⟩,
       ([] : List Segment) ++ [⟨obs.speechBuffer, st.segmentStartTime, obs.time, false,
         mkSegmentId r u st.segmentStartTime⟩])
    else (st, [])) = _
  by_cases hc : obs.speechActive ∧ obs.time - st.lastPartAt ≥ cfg.streamingIntervalMs
      ∧ obs.speechBuffer.length ≥ MIN_PARTIAL_SAMPLES
  · rw [if_pos hc, if_pos hc]
    rfl
  · rw [if_neg hc, if_neg hc]

theorem runIngestion_nil (cfg : WorkerCfg) (r u : Str) (st : IngestState) :
    runIngestion cfg r u st [] = (st, []) := rfl

theorem runIngestion_cons (cfg : WorkerCfg) (r u : Str) (st : IngestState)
    (o : ChunkObs) (t : List ChunkObs) :
    runIngestion cfg r u st (o :: t)
      = ((runIngestion cfg r u (processChunk cfg r u st o).1 t).1,
         (processChunk cfg r u st o).2
           ++ (runIngestion cfg r u (processChunk cfg r u st o).1 t).2) := rfl

theorem runIngestion_append (cfg : WorkerCfg) (r u : Str) (l₁ l₂ : List ChunkObs) :
    ∀ st : IngestState,
    runIngestion cfg r u st (l₁ ++ l₂)
      = ((runIngestion cfg r u (runIngestion cfg r u st l₁).1 l₂).1,
         (runIngestion cfg r u st l₁).2
           ++ (runIngestion cfg r u (runIngestion cfg r u st l₁).1 l₂).2) := by
  induction l₁ with
  | nil => intro st; simp [runIngestion_nil]
  | cons o t ih =>
    intro st
    rw [List.cons_append, runIngestion_cons, runIngestion_cons, ih]
    simp [List.append_assoc]

/-- A run over chunks with no VAD transitions keeps `segment_start_time`,
emits only PARTIALs that carry the current utterance's `segment_id`, and the
emitted end times form a sublist of the chunk times. -/
theorem runIngestion_quiet (cfg : WorkerCfg) (r u : Str) (mid : List ChunkObs) :
    ∀ st : IngestState, (∀ m ∈ mid, m.events = []) →
    (runIngestion cfg r u st mid).1.segmentStartTime = st.segmentStartTime
    ∧ (∀ p ∈ (runIngestion cfg r u st mid).2,
        p.isFinal = false ∧ p.segmentId = mkSegmentId r u st.segmentStartTime
        ∧ p.endTime ∈ mid.map ChunkObs.time)
    ∧ List.Sublist ((runIngestion cfg r u st mid).2.map Segment.endTime)
        (mid.map ChunkObs.time) := by
  induction mid with
  | nil =>
    intro st _
    refine ⟨rfl, ?_, by simp [runIngestion_nil]⟩
    intro p hp
    simp [runIngestion_nil] at hp
  | cons o t ih =>
    intro st hev
    have ho : o.events = [] := hev o (List.mem_cons_self _ _)
    have htl : ∀ m ∈ t, m.events = [] := fun m hm => hev m (List.mem_cons_of_mem _ hm)
    rw [runIngestion_cons, processChunk_noEvents cfg r u st o ho]
    by_cases hc : o.speechActive ∧ o.time - st.lastPartAt ≥ cfg.streamingIntervalMs
        ∧ o.speechBuffer.length ≥ MIN_PARTIAL_SAMPLES
    · rw [if_pos hc]
      obtain ⟨ih1, ih2, ih3⟩ := ih ⟨st.segmentStartTime, o.time⟩ htl
      refine ⟨ih1, ?_, ?_⟩
      · intro p hp
        rcases List.mem_append.mp hp with hp | hp
        · simp only [List.mem_singleton] at hp
          subst hp
          exact ⟨rfl, rfl, by simp⟩
        · obtain ⟨hf, hid, hmem⟩ := ih2 p hp
          exact ⟨hf, hid, by simp [hmem]⟩
      · simp only [List.map_append, List.map_cons, List.map_nil]
        show List.Sublist ([o.time] ++ _) (o.time :: t.map ChunkObs.time)
        rw [List.singleton_append]
        exact ih3.cons₂ o.time
    · rw [if_neg hc]
      obtain ⟨ih1, ih2, ih3⟩ := ih st htl
      refine ⟨ih1, ?_, ?_⟩
      · intro p hp
        rw [List.nil_append] at hp
        obtain ⟨hf, hid, hmem⟩ := ih2 p hp
        exact ⟨hf, hid, by simp [hmem]⟩
      · rw [List.nil_append, List.map_cons]
        exact ih3.cons o.time

/-- C4: over one utterance — a `SpeechStart` chunk, quiet chunks, and a
`SpeechEnd` chunk, with strictly increasing chunk times and the VAD inactive
after the end — every emitted PARTIAL and the terminating FINAL share the
`segment_id` built from the utterance start
(`"{room_hex}:{user_hex}:{utterance_start_seconds}"`), the PARTIALs appear in
strictly increasing audio-time order, and the FINAL is emitted after every
PARTIAL. -/
theorem claim_C4 (cfg : WorkerCfg) (roomHex userHex : Str) (st0 : IngestState)
    (o0 : ChunkObs) (mid : List ChunkObs) (oend : ChunkObs)
    (audio : List Int) (dur : Nat)
    (h0 : o0.events = [VadEvent.speechStart])
    (hmid : ∀ m ∈ mid, m.events = [])
    (hend : oend.events = [VadEvent.speechEnd audio dur])
    (hendActive : oend.speechActive = false)
    (hmono : ((o0 :: (mid ++ [oend])).map ChunkObs.time).Pairwise (· < ·)) :
    ∃ ps : List Segment,
      (runIngestion cfg roomHex userHex st0 (o0 :: (mid ++ [oend]))).2
        = ps ++ [⟨audio, oend.time - dur, oend.time, true,
                  mkSegmentId roomHex userHex o0.time⟩]
      ∧ (∀ p ∈ ps, p.isFinal = false
          ∧ p.segmentId = mkSegmentId roomHex userHex o0.time)
      ∧ (ps.map Segment.endTime).Pairwise (· < ·)
      ∧ mkSegmentId roomHex userHex o0.time
          = roomHex ++ ':' :: userHex ++ ':' :: secsRepr o0.time := by
  rw [List.map_cons] at hmono
  obtain ⟨hlt0, htail⟩ := List.pairwise_cons.mp hmono
  have hmidtimes : List.Sublist (mid.map ChunkObs.time)
      ((mid ++ [oend]).map ChunkObs.time) := by
    rw [List.map_append]
    exact List.sublist_append_left _ _
  have hmidPW : (mid.map ChunkObs.time).Pairwise (· < ·) :=
    List.Pairwise.sublist hmidtimes htail
  -- the SpeechStart chunk
  have h00 : processChunk cfg roomHex userHex st0 o0
      = if o0.speechActive ∧ o0.time - o0.time ≥ cfg.streamingIntervalMs
          ∧ o0.speechBuffer.length ≥ MIN_PARTIAL_SAMPLES then
        (⟨o0.time, o0.time⟩,
         [⟨o0.speechBuffer, o0.time, o0.time, false, mkSegmentId roomHex userHex o0.time⟩])
      else (⟨o0.time, o0.time⟩, ([] : List Segment)) := by
    unfold processChunk
    rw [h0]
    show (if o0.speechActive ∧ o0.time - o0.time ≥ cfg.streamingIntervalMs
        ∧ o0.speechBuffer.length ≥ MIN_PARTIAL_SAMPLES then
        ((⟨o0.time, o0.time⟩ : IngestState),
         (([] : List Segment) ++ []) ++ [⟨o0.speechBuffer, o0.time, o0.time, false,
           mkSegmentId roomHex userHex o0.time⟩])
      else (⟨o0.time, o0.time⟩, ([] : List Segment) ++ [])) = _
    by_cases hc : o0.speechActive ∧ o0.time - o0.time ≥ cfg.streamingIntervalMs
        ∧ o0.speechBuffer.length ≥ MIN_PARTIAL_SAMPLES
    · rw [if_pos hc, if_pos hc]
      rfl
    · rw [if_neg hc, if_neg hc]
      rfl
  obtain ⟨segs0, hA, hsegs0⟩ :
      ∃ segs0, processChunk cfg roomHex userHex st0 o0 = (⟨o0.time, o0.time⟩, segs0)
        ∧ (segs0 = []
           ∨ segs0 = [⟨o0.speechBuffer, o0.time, o0.time, false,
               mkSegmentId roomHex userHex o0.time⟩]) := by
    rw [h00]
    by_cases hc : o0.speechActive ∧ o0.time - o0.time ≥ cfg.streamingIntervalMs
        ∧ o0.speechBuffer.length ≥ MIN_PARTIAL_SAMPLES
    · rw [if_pos hc]
      exact ⟨_, rfl, Or.inr rfl⟩
    · rw [if_neg hc]
      exact ⟨[], rfl, Or.inl rfl⟩
  have hsegs0P : ∀ p ∈ segs0, p.isFinal = false
      ∧ p.segmentId = mkSegmentId roomHex userHex o0.time ∧ p.endTime = o0.time := by
    rcases hsegs0 with h | h <;> subst h
    · intro p hp
      simp at hp
    · intro p hp
      simp only [List.mem_singleton] at hp
      subst hp
      exact ⟨rfl, rfl, rfl⟩
  have hsegs0T : List.Sublist (segs0.map Segment.endTime) [o0.time] := by
    rcases hsegs0 with h | h <;> subst h
    · exact List.nil_sublist _
    · simp
  -- the quiet chunks
  obtain ⟨hq1, hq2, hq3⟩ :=
    runIngestion_quiet cfg roomHex userHex mid ⟨o0.time, o0.time⟩ hmid
  have hq1' : (runIngestion cfg roomHex userHex ⟨o0.time, o0.time⟩ mid).1.segmentStartTime
      = o0.time := hq1
  -- the SpeechEnd chunk
  have hEnd : processChunk cfg roomHex userHex
      (runIngestion cfg roomHex userHex ⟨o0.time, o0.time⟩ mid).1 oend
      = ((runIngestion cfg roomHex userHex ⟨o0.time, o0.time⟩ mid).1,
         [⟨audio, oend.time - dur, oend.time, true,
           mkSegmentId roomHex userHex o0.time⟩]) := by
    unfold processChunk
    rw [hend]
    show (if oend.speechActive ∧
        oend.time - (runIngestion cfg roomHex userHex ⟨o0.time, o0.time⟩ mid).1.lastPartAt
          ≥ cfg.streamingIntervalMs
        ∧ oend.speechBuffer.length ≥ MIN_PARTIAL_SAMPLES then
        ((⟨(runIngestion cfg roomHex userHex ⟨o0.time, o0.time⟩ mid).1.segmentStartTime,
           oend.time⟩ : IngestState),
         (([] : List Segment) ++ [⟨audio, oend.time - dur, oend.time, true,
           mkSegmentId roomHex userHex
             (runIngestion cfg roomHex userHex ⟨o0.time, o0.time⟩ mid).1.segmentStartTime⟩])
          ++ [⟨oend.speechBuffer,
               (runIngestion cfg roomHex userHex ⟨o0.time, o0.time⟩ mid).1.segmentStartTime,
               oend.time, false,
               mkSegmentId roomHex userHex
                 (runIngestion cfg roomHex userHex ⟨o0.time, o0.time⟩ mid).1.segmentStartTime⟩])
      else ((runIngestion cfg roomHex userHex ⟨o0.time, o0.time⟩ mid).1,
        ([] : List Segment) ++ [⟨audio, oend.time - dur, oend.time, true,
          mkSegmentId roomHex userHex
            (runIngestion cfg roomHex userHex ⟨o0.time, o0.time⟩ mid).1.segmentStartTime⟩])) = _
    rw [if_neg (by simp [hendActive]), hq1']
    rfl
  have hsplit : (runIngestion cfg roomHex userHex st0 (o0 :: (mid ++ [oend]))).2
      = segs0
        ++ ((runIngestion cfg roomHex userHex ⟨o0.time, o0.time⟩ mid).2
        ++ (processChunk cfg roomHex userHex
              (runIngestion cfg roomHex userHex ⟨o0.time, o0.time⟩ mid).1 oend).2) := by
    rw [runIngestion_cons, runIngestion_append, hA]
    simp [runIngestion_cons, runIngestion_nil]
  refine ⟨segs0 ++ (runIngestion cfg roomHex userHex ⟨o0.time, o0.time⟩ mid).2,
    ?_, ?_, ?_, rfl⟩
  · rw [hsplit, hEnd]
    simp [List.append_assoc]
  · intro p hp
    rcases List.mem_append.mp hp with hp | hp
    · obtain ⟨hf, hid, _⟩ := hsegs0P p hp
      exact ⟨hf, hid⟩
    · obtain ⟨hf, hid, _⟩ := hq2 p hp
      exact ⟨hf, hid⟩
  · rw [List.map_append, List.pairwise_append]
    refine ⟨List.Pairwise.sublist hsegs0T (by simp), List.Pairwise.sublist hq3 hmidPW, ?_⟩
    intro a ha b hb
    have ha' : a = o0.time := by
      have := hsegs0T.mem ha
      simpa using this
    have hb' : b ∈ mid.map ChunkObs.time := hq3.mem hb
    rw [ha']
    exact hlt0 b (hmidtimes.mem hb')

/-- C4 witness: an utterance with one quiet chunk between SpeechStart and
SpeechEnd. -/
theorem claim_C4_witness :
    ∃ ps : List Segment,
      (runIngestion ⟨500⟩ ('r' :: []) ('u' :: []) ⟨0, 0⟩
        (⟨1000, [VadEvent.speechStart], true, []⟩
          :: ([⟨1600, [], true, []⟩] ++ [⟨2200, [VadEvent.speechEnd [3] 900], false, []⟩]))).2
        = ps ++ [⟨[3], 2200 - 900, 2200, true, mkSegmentId ('r' :: []) ('u' :: []) 1000⟩]
      ∧ (∀ p ∈ ps, p.isFinal = false
          ∧ p.segmentId = mkSegmentId ('r' :: []) ('u' :: []) 1000)
      ∧ (ps.map Segment.endTime).Pairwise (· < ·)
      ∧ mkSegmentId ('r' :: []) ('u' :: []) 1000
          = ('r' :: []) ++ ':' :: ('u' :: []) ++ ':' :: secsRepr 1000 :=
  claim_C4 ⟨500⟩ ('r' :: []) ('u' :: []) ⟨0, 0⟩
    ⟨1000, [VadEvent.speechStart], true, []⟩
    [⟨1600, [], true, []⟩]
    ⟨2200, [VadEvent.speechEnd [3] 900], false, []⟩
    [3] 900 rfl (by decide) rfl rfl (by decide)

/-! ## C5: TURN credentials in media:join -/

/-- C5: with a TURN URL and shared secret configured, `media:join` returns a
single ICE server whose username is `"{now+86400}:{user_hex}"` (expiry = now
plus 86400 seconds) and whose credential is
`base64(HMAC-SHA1(secret, username))`; with a URL but no shared secret, the
configured static username and password are returned; with no URL, the
`ice_servers` list is empty. -/
theorem claim_C5 :
    (∀ (url secret userHex : Str) (uname pwd : Option Str) (now : Nat),
      mediaJoinIceServers ⟨some url, some secret, uname, pwd⟩ userHex now =
        [⟨turnUrls url, natToStr (now + 86400) ++ ':' :: userHex,
          base64Encode (hmacSha1 (strBytes secret)
            (strBytes (natToStr (now + 86400) ++ ':' :: userHex)))⟩])
    ∧ (∀ (url su sp userHex : Str) (now : Nat),
      mediaJoinIceServers ⟨some url, none, some su, some sp⟩ userHex now =
        [⟨turnUrls url, su, sp⟩])
    ∧ (∀ (ss uname pwd : Option Str) (userHex : Str) (now : Nat),
      mediaJoinIceServers ⟨none, ss, uname, pwd⟩ userHex now = []) :=
  ⟨fun _ _ _ _ _ _ => rfl, fun _ _ _ _ _ => rfl, fun _ _ _ _ _ => rfl⟩

end Roomler
